import Mathlib

/-!
Shallow embedding of `big12ChampionshipOdds.py` (Big 12 championship game
simulator).  Python's in-place mutation of the shared `games` and `teams`
row lists is rendered as explicit state passing: every helper that mutates
a row list takes it and returns the updated copy.  Python floats are
rendered as `ℚ` and the uniform random sources (`random.random()` per game,
`randrange` in the tie-break fallback) as explicit streams of values,
consumed in program order.
-/

namespace Big12

/-- One row of the `games` list built by `loadGameData`:
`[home, away, prob, result, 0]`.  `home`/`away` are indices 0/1 (the
alphabetically first team is stored first), `prob` is index 2 (the home
side's win probability), `result` is index 3 (1 when the home side won,
0 otherwise / not yet simulated).  Index 4 of the Python row is never read
or written after construction, so it is omitted. -/
structure Game where
  home : String
  away : String
  prob : ℚ
  result : ℕ
  deriving Repr, DecidableEq

/-- One row of the `teams` list the simulator sets up per team:
`[name, seasonWins, tieWins, firstPlaceCount, secondPlaceCount, 0, currentPlace]`
(indices 0,1,2,3,4,6; index 5 of the Python row is never read or written,
so it is omitted). -/
structure Team where
  name : String
  seasonWins : ℕ
  tieWins : ℕ
  firstPlaceCount : ℕ
  secondPlaceCount : ℕ
  currentPlace : ℕ
  deriving Repr, DecidableEq

/-- Return value of `resolveTiebreaker`: the (singleton) winner list and the
`usedRandom` flag, plus `picks`, the number of `randrange` draws consumed —
instrumentation that lets us state "the random fallback was used". -/
structure TieResult where
  winners : List String
  usedRandom : Bool
  picks : ℕ
  deriving Repr, DecidableEq

/-- Kernel-reducible decision procedure for the string order (the default
`String.ltb`-based instances do not reduce inside the kernel, which would
make the concrete evaluations below impossible); the order itself is
unchanged. -/
instance (priority := 2000) decStrLt : DecidableRel (α := String) (· < ·) := fun a b =>
  decidable_of_iff (a.toList < b.toList) String.lt_iff_toList_lt.symm

/-- Kernel-reducible decision procedure for `≤` on strings. -/
instance (priority := 2000) decStrLe : DecidableRel (α := String) (· ≤ ·) := fun a b =>
  decidable_of_iff (a.toList ≤ b.toList) String.le_iff_toList_le.symm

/-- Python's `sorted` on a list of team names (ascending lexicographic). -/
def sortNames (l : List String) : List String :=
  l.insertionSort (· ≤ ·)

/-- `findTeamsWithRecord(teams, wins, excludePlaced)`. -/
def findTeamsWithRecord (teams : List Team) (wins : ℕ) (excludePlaced : Bool) :
    List String :=
  sortNames ((teams.filter
    (fun t => t.seasonWins == wins && (!excludePlaced || t.currentPlace == 0))).map Team.name)

/-- `sum(team[2] for team in teams if team[0] in winners)`. -/
def sumTieWins (teams : List Team) (winners : List String) : ℕ :=
  (teams.filter (fun t => t.name ∈ winners)).foldl (fun s t => s + t.tieWins) 0

/-- `max(team[2] for team in teams if team[0] in winners)`; Python raises on
an empty candidate list, the embedding totalizes that case to 0 (all the
theorems below supply candidates that do occur in `teams`). -/
def maxTieWins (teams : List Team) (winners : List String) : ℕ :=
  (teams.filter (fun t => t.name ∈ winners)).foldl (fun m t => max m t.tieWins) 0

/-- `max(team[1] for team in teams)`, totalized to 0 for an empty list. -/
def maxSeasonWins (teams : List Team) : ℕ :=
  teams.foldl (fun m t => max m t.seasonWins) 0

/-- The sorted selection `[team[0] for team in teams if team[0] in winners and p(team)]`
followed by `.sort()`, the shape shared by every shrinking step of
`resolveTiebreaker`. -/
def selectWinners (teams : List Team) (winners : List String) (p : Team → Bool) :
    List String :=
  sortNames ((teams.filter (fun t => t.name ∈ winners && p t)).map Team.name)

/-- `getHeadToHeadRecord(games, teams, teamList)`: reset every `tieWins` to 0,
then credit each decided intra-`teamList` game to its winner. -/
def getHeadToHeadRecord (games : List Game) (teams : List Team)
    (teamList : List String) : List Team :=
  games.foldl
    (fun ts g =>
      if g.home ∈ teamList ∧ g.away ∈ teamList then
        ts.map (fun t =>
          if g.result = 1 ∧ t.name = g.home then { t with tieWins := t.tieWins + 1 }
          else if g.result = 0 ∧ t.name = g.away then { t with tieWins := t.tieWins + 1 }
          else t)
      else ts)
    (teams.map (fun t => { t with tieWins := 0 }))

/-- `getRecordVsCommonOpponents(games, teams, teamList, opponentList)`:
reset every `tieWins` to 0, then walk `games × teamList × opponentList` in
Python's nesting order, crediting wins over listed opponents. -/
def getRecordVsCommonOpponents (games : List Game) (teams : List Team)
    (teamList opponentList : List String) : List Team :=
  games.foldl
    (fun ts g =>
      teamList.foldl
        (fun ts tn =>
          opponentList.foldl
            (fun ts op =>
              if g.home = tn ∧ g.away = op then
                ts.map (fun t =>
                  if g.result = 1 ∧ t.name = tn then { t with tieWins := t.tieWins + 1 } else t)
              else if g.away = tn ∧ g.home = op then
                ts.map (fun t =>
                  if g.result = 0 ∧ t.name = tn then { t with tieWins := t.tieWins + 1 } else t)
              else ts)
            ts)
        ts)
    (teams.map (fun t => { t with tieWins := 0 }))

/-- The opponent list a single team accumulates inside `findCommonOpponents`. -/
def opponentsOf (games : List Game) (n : String) : List String :=
  games.foldl
    (fun acc g =>
      if g.home = n then acc ++ [g.away]
      else if g.away = n then acc ++ [g.home]
      else acc)
    []

/-- `findCommonOpponents(games, teams, teamList)`: the teams outside
`teamList` that appear in every `teamList` member's opponent list. -/
def findCommonOpponents (games : List Game) (teams : List Team)
    (teamList : List String) : List String :=
  let teamOpponents :=
    (teams.filter (fun t => t.name ∈ teamList)).map (fun t => opponentsOf games t.name)
  ((teams.filter (fun t => t.name ∉ teamList)).filter
    (fun t => teamOpponents.all (fun ol => t.name ∈ ol))).map Team.name

/-- `sum` of `opponent[1]` over the entries of `teams` named `n` (Python's
inner `for opponent in teams: if match: ... += opponent[1]` loop). -/
def sumWinsOfName (teams : List Team) (n : String) : ℕ :=
  teams.foldl (fun s t => if t.name = n then s + t.seasonWins else s) 0

/-- `calculateOpponentStrength(games, teams, teamList)`: reset every
`tieWins` to 0, then for every game add the opposing side's `seasonWins` to
each participant's `tieWins`.  The `teamList` argument is accepted but,
exactly as in the source, never used. -/
def calculateOpponentStrength (games : List Game) (teams : List Team)
    (_teamList : List String) : List Team :=
  games.foldl
    (fun ts g =>
      ts.map (fun t =>
        if g.home = t.name then { t with tieWins := t.tieWins + sumWinsOfName ts g.away }
        else if g.away = t.name then { t with tieWins := t.tieWins + sumWinsOfName ts g.home }
        else t))
    (teams.map (fun t => { t with tieWins := 0 }))

/-- Step 1 of the two-team tiebreaker: scan `games` for the first fixture
between `a` and `b` (either orientation) and return its winner — `game[3] == 1`
means the stored home (alphabetically first) side won. -/
def headToHeadWinner (games : List Game) (a b : String) : Option String :=
  match games with
  | [] => none
  | g :: gs =>
    if g.home = a ∧ g.away = b then some (if g.result = 1 then a else b)
    else if g.home = b ∧ g.away = a then some (if g.result = 1 then b else a)
    else headToHeadWinner gs a b

/-- One pass of the `while recordLevel >= 0` body shared by step 2 of both
tiebreaker procedures: gather the common opponents whose `seasonWins` equals
`level`, and if any exist recompute `tieWins` against exactly them; `some nw`
signals the `newWinners != winners` break/restart. -/
def tieredLevelStep (games : List Game) (winners commonOpponents : List String)
    (teams : List Team) (level : ℕ) : List Team × Option (List String) :=
  let opponentsAtLevel :=
    (teams.filter (fun t => t.seasonWins == level && t.name ∈ commonOpponents)).map Team.name
  if opponentsAtLevel.isEmpty then (teams, none)
  else
    let teams1 := getRecordVsCommonOpponents games teams winners opponentsAtLevel
    let m := maxTieWins teams1 winners
    if 0 < m then
      let nw := selectWinners teams1 winners (fun t => t.tieWins == m)
      if nw ≠ winners then (teams1, some nw) else (teams1, none)
    else (teams1, none)

/-- The full `while recordLevel >= 0` loop, descending from `level` to 0. -/
def tieredLoop (games : List Game) (winners commonOpponents : List String) :
    ℕ → List Team → List Team × Option (List String)
  | 0, teams => tieredLevelStep games winners commonOpponents teams 0
  | l + 1, teams =>
    let s := tieredLevelStep games winners commonOpponents teams (l + 1)
    if s.2.isSome then s else tieredLoop games winners commonOpponents l s.1

/-- Step 3 of both procedures: record against all common opponents (guarded
by `if commonOpponents:` and `maxTieWins > 0`). -/
def step3All (games : List Game) (teams : List Team)
    (winners commonOpponents : List String) : List Team × List String :=
  if commonOpponents ≠ [] then
    let teams1 := getRecordVsCommonOpponents games teams winners commonOpponents
    let m := maxTieWins teams1 winners
    if 0 < m then
      let nw := selectWinners teams1 winners (fun t => t.tieWins == m)
      if nw ≠ winners then (teams1, nw) else (teams1, winners)
    else (teams1, winners)
  else (teams, winners)

/-- Step 4 of both procedures: strength of schedule (no positivity guard). -/
def step4Strength (games : List Game) (teams : List Team)
    (winners : List String) : List Team × List String :=
  let teams1 := calculateOpponentStrength games teams winners
  let m := maxTieWins teams1 winners
  let nw := selectWinners teams1 winners (fun t => t.tieWins == m)
  if nw ≠ winners then (teams1, nw) else (teams1, winners)

/-- Steps 1–4 of the two-team tiebreaker, with the source's early exits:
each `if len(winners) == 1: return` simply stops the pipeline.  The
candidate list only shrinks, never consults the random source. -/
def twoTeamSteps (games : List Game) (teams : List Team)
    (winners : List String) : List String :=
  let w1 :=
    match winners with
    | [a, b] =>
      match headToHeadWinner games a b with
      | some w => [w]
      | none => winners
    | _ => winners
  if w1.length = 1 then w1
  else
    let co := findCommonOpponents games teams w1
    let tl := tieredLoop games w1 co (maxSeasonWins teams) teams
    let w2 := tl.2.getD w1
    if w2.length = 1 then w2
    else
      let s3 := step3All games tl.1 w2 co
      if s3.2.length = 1 then s3.2
      else (step4Strength games s3.1 s3.2).2

/-- The `len(winners) == 2` branch of `resolveTiebreaker`: run steps 1–4 and
fall back to `winners[randrange(len(winners))]` when two candidates remain
(`pick` is the `randrange` stream, read at position `idx`; reading it is
exactly what sets `usedRandom`). -/
def resolveTwoTeamAux (games : List Game) (teams : List Team)
    (winners : List String) (pick : ℕ → ℕ) (idx : ℕ) : TieResult :=
  let w := twoTeamSteps games teams winners
  if w.length = 1 then ⟨w, false, 0⟩
  else if 1 < w.length then ⟨[w.getD (pick idx % w.length) ""], true, 1⟩
  else ⟨w, false, 0⟩

/-- Outcome of one body of the `while len(winners) > 2` loop: either some
step shrank the candidate list (`continue`), or all of steps 1–4 left it
unchanged and step 5 must pick at random. -/
inductive MultiStep where
  | shrunk (teams : List Team) (winners : List String)
  | randomPick (teams : List Team)
  deriving Repr

/-- Steps 2–5 of one body of the multi-team loop, entered when step 1 did
not shrink the group; `t1` is the team state after `getHeadToHeadRecord`. -/
def multiIterRest (games : List Game) (t1 : List Team)
    (winners : List String) : MultiStep :=
  let co := findCommonOpponents games t1 winners
  let tl := tieredLoop games winners co (maxSeasonWins t1) t1
  match tl.2 with
  | some nw => .shrunk tl.1 nw
  | none =>
    let s3 := step3All games tl.1 winners co
    if s3.2 ≠ winners then .shrunk s3.1 s3.2
    else
      let s4 := step4Strength games s3.1 winners
      if s4.2 ≠ winners then .shrunk s4.1 s4.2
      else .randomPick s4.1

/-- One body of the multi-team loop (steps 1–4 in source order, threading
the `tieWins` scratch state). -/
def multiIter (games : List Game) (teams : List Team)
    (winners : List String) : MultiStep :=
  let t1 := getHeadToHeadRecord games teams winners
  let total := sumTieWins t1 winners
  let expected := (winners.length - 1) * winners.length / 2
  let step1res : Option (List String) :=
    if total = expected then
      let m := maxTieWins t1 winners
      let nw := selectWinners t1 winners (fun t => t.tieWins == m)
      if nw ≠ winners then some nw else none
    else
      let mp := winners.length - 1
      let nw := selectWinners t1 winners (fun t => t.tieWins == mp)
      if nw ≠ winners ∧ nw ≠ [] then some nw else none
  match step1res with
  | some nw => .shrunk t1 nw
  | none => multiIterRest games t1 winners

/-- The `while len(winners) > 2` loop.  The Python loop has no fuel; it
terminates because every `continue` strictly shrinks `winners` (proved
below), so running it with fuel `winners.length` is exact. -/
def multiLoop (games : List Game) (pick : ℕ → ℕ) (idx : ℕ) :
    ℕ → List Team → List String → List Team × TieResult
  | fuel, teams, winners =>
    if winners.length ≤ 2 then (teams, ⟨winners, false, 0⟩)
    else
      match fuel with
      | 0 => (teams, ⟨winners, false, 0⟩)
      | fuel' + 1 =>
        match multiIter games teams winners with
        | .shrunk t1 w1 => multiLoop games pick idx fuel' t1 w1
        | .randomPick t1 =>
          (t1, ⟨[winners.getD (pick idx % winners.length) ""], true, 1⟩)

/-- `resolveTiebreaker(games, teams, tiedTeams)`.  Every call of
`randrange` consumes one value of `pick` (counted in `picks`). -/
def resolveTiebreaker (games : List Game) (teams : List Team)
    (tiedTeams : List String) (pick : ℕ → ℕ) (idx : ℕ) : TieResult :=
  let winners := sortNames tiedTeams
  if winners.length = 1 then ⟨winners, false, 0⟩
  else if winners.length = 2 then resolveTwoTeamAux games teams winners pick idx
  else
    let p := multiLoop games pick idx winners.length teams winners
    if p.2.winners.length = 2 then
      resolveTwoTeamAux games p.1 (sortNames p.2.winners) pick idx
    else p.2

/-- The start-of-trial reset in `simulateGames`: `team[1] = 0; team[2] = 0;
team[6] = 0` (the cross-trial counters at indices 3 and 4 are kept). -/
def resetTeam (t : Team) : Team :=
  { t with seasonWins := 0, tieWins := 0, currentPlace := 0 }

/-- The body of `simulateGames`'s per-game loop: reset `game[3]`, draw `r`,
then scan `teams`, crediting the home side when `r < prob` (also recording
`game[3] = 1`) and the away side when `r >= prob`.  The loop writes only
`game[3]`, so the reads of `game[0]`, `game[1]`, `game[2]` during the scan
are reads of `g`'s fixed fields. -/
def simGameStep (r : ℚ) (g : Game) (acc : Game × List Team) (t : Team) :
    Game × List Team :=
  if g.home = t.name then
    if r < g.prob then
      ({ acc.1 with result := 1 }, acc.2 ++ [{ t with seasonWins := t.seasonWins + 1 }])
    else (acc.1, acc.2 ++ [t])
  else if g.away = t.name then
    if g.prob ≤ r then (acc.1, acc.2 ++ [{ t with seasonWins := t.seasonWins + 1 }])
    else (acc.1, acc.2 ++ [t])
  else (acc.1, acc.2 ++ [t])

def simGame (r : ℚ) (g : Game) (teams : List Team) : Game × List Team :=
  teams.foldl (simGameStep r g) ({ g with result := 0 }, [])

/-- The per-game loop of `simulateGames`, drawing `draw i` for the game at
overall position `i`. -/
def simulateGamesAux (draw : ℕ → ℚ) : ℕ → List Game → List Team → List Game × List Team
  | _, [], teams => ([], teams)
  | i, g :: gs, teams =>
    let p := simGame (draw i) g teams
    let q := simulateGamesAux draw (i + 1) gs p.2
    (p.1 :: q.1, q.2)

/-- `simulateGames(games, teams)` with the random stream `draw` (one
`random.random()` value per game, in schedule order). -/
def simulateGames (draw : ℕ → ℚ) (games : List Game) (teams : List Team) :
    List Game × List Team :=
  simulateGamesAux draw 0 games (teams.map resetTeam)

/-- `maxWins` as computed at the top of each `determineStandings` pass:
the largest `seasonWins` among unplaced teams (0 when none beat 0). -/
def maxUnplacedWins (teams : List Team) : ℕ :=
  teams.foldl
    (fun m t => if t.currentPlace = 0 ∧ m < t.seasonWins then t.seasonWins else m) 0

/-- Result of one trial's standings resolution.  `first`/`second` are
`none` exactly when Python would leave `firstPlaceTeam`/`secondPlaceTeam`
unbound (no candidate found for that place). -/
structure StandingsResult where
  teams : List Team
  first : Option String
  second : Option String
  randomUsed : ℕ
  picks : ℕ
  deriving Repr, DecidableEq

/-- One pass of `determineStandings`'s `while currentPlace <= 2` loop:
find the tied max-win unplaced group, break the tie, and stamp the place
(also bumping the cross-trial 1st/2nd counters). -/
def placePass (games : List Game) (pick : ℕ → ℕ) (idx : ℕ)
    (teams : List Team) (place : ℕ) :
    List Team × Option String × Bool × ℕ :=
  let tied := findTeamsWithRecord teams (maxUnplacedWins teams) true
  if tied = [] then (teams, none, false, 0)
  else
    let r := resolveTiebreaker games teams tied pick idx
    let teams1 := teams.map (fun t =>
      if t.name ∈ r.winners then
        { t with currentPlace := place,
                 firstPlaceCount := if place = 1 then t.firstPlaceCount + 1 else t.firstPlaceCount,
                 secondPlaceCount := if place = 2 then t.secondPlaceCount + 1 else t.secondPlaceCount }
      else t)
    let placed := ((teams.filter (fun t => t.name ∈ r.winners)).map Team.name).getLast?
    (teams1, placed, r.usedRandom, r.picks)

/-- `determineStandings(games, teams)`: fill place 1 then place 2;
`randomUsed` is the returned `randomTiebreakersUsed` counter, incremented
once per place whose tie resolution reported a random fallback. -/
def determineStandings (games : List Game) (teams : List Team)
    (pick : ℕ → ℕ) (idx : ℕ) : StandingsResult :=
  let p1 := placePass games pick idx teams 1
  let p2 := placePass games pick (idx + p1.2.2.2) p1.1 2
  ⟨p2.1, p1.2.1, p2.2.1,
   (if p1.2.2.1 then 1 else 0) + (if p2.2.2.1 then 1 else 0),
   p1.2.2.2 + p2.2.2.2⟩

/-- Canonicalization of one raw CSV row `(team1, team2, prob)` inside
`loadGameData`: store the alphabetically first team as the home side,
flipping the probability when the row's first team is not it.  (The later
`1.0`/`0.0`-to-`int` conversion in the source changes only the Python
runtime type, never the numeric value, so it has no counterpart in `ℚ`.) -/
def canonGame (r : String × String × ℚ) : Game :=
  if r.1 < r.2.1 then ⟨r.1, r.2.1, r.2.2, 0⟩
  else ⟨r.2.1, r.1, 1 - r.2.2, 0⟩

/-- The validation core of `loadGameData`: canonicalize every row, then fail
(`sys.exit`, rendered as `none`) unless the row count equals
`9 * len(bigTwelveTeams) // 2`. -/
def loadGameData (bigTwelveTeams : List String)
    (raw : List (String × String × ℚ)) : Option (List Game) :=
  let games := raw.map canonGame
  if games.length = 9 * bigTwelveTeams.length / 2 then some games else none

/-- Result of one simulation trial inside `runSimulations`'s loop. -/
structure TrialResult where
  games : List Game
  teams : List Team
  first : Option String
  second : Option String
  used : ℕ
  deriving Repr, DecidableEq

/-- One iteration of `runSimulations`'s loop: `simulateGames` then
`determineStandings` (each trial starts its `randrange` stream at 0). -/
def runTrial (draw : ℕ → ℚ) (pick : ℕ → ℕ) (games : List Game)
    (teams : List Team) : TrialResult :=
  let s := simulateGames draw games teams
  let d := determineStandings s.1 s.2 pick 0
  ⟨s.1, d.teams, d.first, d.second, d.randomUsed⟩

/-- The accumulation `totalRandomTiebreakers += randomUsed` across the first
`n` trials of `runSimulations` (trial `i` uses streams `draws i`,
`picks i`), threading the mutated `games`/`teams` state; the third
component is `totalRandomTiebreakers`. -/
def runSims (draws : ℕ → ℕ → ℚ) (picks : ℕ → ℕ → ℕ)
    (games : List Game) (teams : List Team) : ℕ → List Game × List Team × ℕ
  | 0 => (games, teams, 0)
  | n + 1 =>
    let s := runSims draws picks games teams n
    let r := runTrial (draws n) (picks n) s.1 s.2.1
    (r.games, r.teams, s.2.2 + r.used)

/-- The winner of a simulated game under draw `r`: the home side iff
`r < prob`. -/
def gameWinner (r : ℚ) (g : Game) : String :=
  if r < g.prob then g.home else g.away

/-- Number of games (starting at stream position `i`) whose simulated
winner is `n`. -/
def winsByName (draw : ℕ → ℚ) : ℕ → String → List Game → ℕ
  | _, _, [] => 0
  | i, n, g :: gs =>
    (if gameWinner (draw i) g = n then 1 else 0) + winsByName draw (i + 1) n gs

/-- The game list as recorded by a full simulation pass: each fixture's
`result` is 1 iff its draw fell below its probability. -/
def simResults (draw : ℕ → ℚ) : ℕ → List Game → List Game
  | _, [] => []
  | i, g :: gs =>
    { g with result := if draw i < g.prob then 1 else 0 } :: simResults draw (i + 1) gs

/-- Per-game opponent-strength contribution for team `n`: the other side's
win total if `n` played in `g`, else 0. -/
def oppContribution (teams : List Team) (n : String) (g : Game) : ℕ :=
  if g.home = n then sumWinsOfName teams g.away
  else if g.away = n then sumWinsOfName teams g.home
  else 0

/-- Sum of `oppContribution` over all games: what
`calculateOpponentStrength` actually computes (once per game played). -/
def oppStrengthPerGame (games : List Game) (teams : List Team) (n : String) : ℕ :=
  games.foldl (fun s g => s + oppContribution teams n g) 0

/-- Modelled from the spec (testable property 5): strength of schedule as
the sum of the opponents' win totals counted "exactly once per opponent
played (no double counting of repeated opponents)" — i.e. over the
deduplicated opponent list. -/
def oppStrengthOncePerOpponent (games : List Game) (teams : List Team)
    (n : String) : ℕ :=
  ((opponentsOf games n).dedup).foldl (fun s m => s + sumWinsOfName teams m) 0

/-! ### Sorting facts -/

theorem sortNames_perm (l : List String) : List.Perm (sortNames l) l :=
  List.perm_insertionSort _ l

theorem sortNames_sorted (l : List String) : (sortNames l).Sorted (· ≤ ·) :=
  List.sorted_insertionSort _ l

theorem mem_sortNames {a : String} {l : List String} : a ∈ sortNames l ↔ a ∈ l :=
  (sortNames_perm l).mem_iff

theorem sortNames_nodup {l : List String} (h : l.Nodup) : (sortNames l).Nodup :=
  ((sortNames_perm l).nodup_iff).mpr h

theorem sortNames_eq_of_sorted {l : List String} (h : l.Sorted (· ≤ ·)) :
    sortNames l = l :=
  List.eq_of_perm_of_sorted (sortNames_perm l) (sortNames_sorted l) h

/-- Two sorted duplicate-free string lists, one included in the other but
different, differ in length. -/
theorem sorted_length_lt {l₁ l₂ : List String} (hsub : l₁ ⊆ l₂)
    (d₁ : l₁.Nodup) (s₁ : l₁.Sorted (· ≤ ·)) (s₂ : l₂.Sorted (· ≤ ·))
    (hne : l₁ ≠ l₂) : l₁.length < l₂.length := by
  have hsp := List.subperm_of_subset d₁ hsub
  rcases Nat.lt_or_ge l₁.length l₂.length with h | h
  · exact h
  · exact absurd (List.eq_of_perm_of_sorted (hsp.perm_of_length_le h) s₁ s₂) hne

/-- A sorted duplicate-free list over `{a, b}` with `a < b` is one of the
four sublists of `[a, b]`. -/
theorem subset_pair_classify {a b : String} {l : List String} (hab : a < b)
    (hsub : ∀ x ∈ l, x = a ∨ x = b) (d : l.Nodup) (s : l.Sorted (· ≤ ·)) :
    l = [] ∨ l = [a] ∨ l = [b] ∨ l = [a, b] := by
  match l, hsub, d, s with
  | [], _, _, _ => exact Or.inl rfl
  | [x], hsub, _, _ =>
    rcases hsub x (by simp) with h | h
    · subst h; exact Or.inr (Or.inl rfl)
    · subst h; exact Or.inr (Or.inr (Or.inl rfl))
  | [x, y], hsub, d, s =>
    have hx := hsub x (by simp)
    have hy := hsub y (by simp)
    have hxy : x ≠ y := by
      have h' := (List.nodup_cons.mp d).1
      simpa using h'
    have hle : x ≤ y := List.rel_of_sorted_cons s y (by simp)
    rcases hx with hxa | hxb
    · rcases hy with hya | hyb
      · exact absurd (hxa.trans hya.symm) hxy
      · subst hxa; subst hyb; exact Or.inr (Or.inr (Or.inr rfl))
    · rcases hy with hya | hyb
      · subst hxb; subst hya; exact absurd hle (not_le.mpr hab)
      · exact absurd (hxb.trans hyb.symm) hxy
  | x :: y :: z :: l', hsub, d, _ =>
    exfalso
    have hx := hsub x (by simp)
    have hy := hsub y (by simp)
    have hz := hsub z (by simp)
    have d' := d
    simp only [List.nodup_cons, List.mem_cons, not_or] at d'
    rcases hx with rfl | rfl <;> rcases hy with rfl | rfl <;> rcases hz with h | h <;>
      tauto

/-! ### Name preservation by the scratch-state helpers -/

/-- The name column of a team list. -/
def namesOf (teams : List Team) : List String := teams.map Team.name

theorem namesOf_map (f : Team → Team) (h : ∀ t, (f t).name = t.name)
    (ts : List Team) : namesOf (ts.map f) = namesOf ts := by
  induction ts with
  | nil => rfl
  | cons t ts ih =>
    simp only [namesOf, List.map_cons] at ih ⊢
    rw [h t, ih]

theorem foldl_namesOf_eq {α : Type} {f : List Team → α → List Team}
    (h : ∀ ts a, namesOf (f ts a) = namesOf ts) (l : List α) (ts : List Team) :
    namesOf (l.foldl f ts) = namesOf ts := by
  induction l generalizing ts with
  | nil => rfl
  | cons a l ih => rw [List.foldl_cons, ih, h]

theorem namesOf_getHeadToHeadRecord (games : List Game) (teams : List Team)
    (tl : List String) : namesOf (getHeadToHeadRecord games teams tl) = namesOf teams := by
  unfold getHeadToHeadRecord
  refine (foldl_namesOf_eq ?_ _ _).trans (namesOf_map (fun t => { t with tieWins := 0 }) (fun t => rfl) _)
  intro ts g
  split
  · refine namesOf_map _ ?_ _; intro t
    split
    · rfl
    · split <;> rfl
  · rfl

theorem namesOf_getRecordVsCommonOpponents (games : List Game) (teams : List Team)
    (tl ol : List String) :
    namesOf (getRecordVsCommonOpponents games teams tl ol) = namesOf teams := by
  unfold getRecordVsCommonOpponents
  refine (foldl_namesOf_eq ?_ _ _).trans (namesOf_map (fun t => { t with tieWins := 0 }) (fun t => rfl) _)
  intro ts g
  refine foldl_namesOf_eq ?_ _ _
  intro ts tn
  refine foldl_namesOf_eq ?_ _ _
  intro ts op
  split
  · refine namesOf_map _ ?_ _; intro t; split <;> rfl
  · split
    · refine namesOf_map _ ?_ _; intro t; split <;> rfl
    · rfl

theorem namesOf_calculateOpponentStrength (games : List Game) (teams : List Team)
    (tl : List String) :
    namesOf (calculateOpponentStrength games teams tl) = namesOf teams := by
  unfold calculateOpponentStrength
  refine (foldl_namesOf_eq ?_ _ _).trans (namesOf_map (fun t => { t with tieWins := 0 }) (fun t => rfl) _)
  intro ts g
  refine namesOf_map _ ?_ _; intro t
  split
  · rfl
  · split <;> rfl

/-! ### Facts about the `max` folds -/

theorem foldl_max_or (l : List ℕ) (a : ℕ) :
    l.foldl max a = a ∨ l.foldl max a ∈ l := by
  induction l generalizing a with
  | nil => exact Or.inl rfl
  | cons x l ih =>
    rw [List.foldl_cons]
    rcases Nat.le_total a x with hax | hxa
    · rcases ih (max a x) with h | h
      · rw [h, max_eq_right hax]; exact Or.inr (List.mem_cons_self _ _)
      · exact Or.inr (List.mem_cons_of_mem _ h)
    · rcases ih (max a x) with h | h
      · rw [h, max_eq_left hxa]; exact Or.inl rfl
      · exact Or.inr (List.mem_cons_of_mem _ h)

theorem le_foldl_max (l : List ℕ) (a : ℕ) :
    (∀ x ∈ l, x ≤ l.foldl max a) ∧ a ≤ l.foldl max a := by
  induction l generalizing a with
  | nil => exact ⟨by simp, le_refl a⟩
  | cons x l ih =>
    rw [List.foldl_cons]
    rcases ih (max a x) with ⟨h1, h2⟩
    refine ⟨?_, le_trans (le_max_left a x) h2⟩
    intro y hy
    rcases List.mem_cons.mp hy with rfl | hy
    · exact le_trans (le_max_right a y) h2
    · exact h1 y hy

theorem foldl_max_zero_mem {l : List ℕ} (h : l ≠ []) : l.foldl max 0 ∈ l := by
  rcases foldl_max_or l 0 with h0 | hm
  · match l, h with
    | x :: l', _ =>
      have hx : x = 0 :=
        Nat.le_antisymm (h0 ▸ (le_foldl_max (x :: l') 0).1 x (List.mem_cons_self _ _))
          (Nat.zero_le x)
      rw [h0, ← hx]
      exact List.mem_cons_self _ _
  · exact hm

/-- `maxTieWins` as a fold of `max` over the tie-win column. -/
theorem maxTieWins_eq (teams : List Team) (winners : List String) :
    maxTieWins teams winners =
      ((teams.filter (fun t => t.name ∈ winners)).map Team.tieWins).foldl max 0 := by
  rw [List.foldl_map]; rfl

/-- Some candidate attains `maxTieWins` as soon as some candidate occurs. -/
theorem maxTieWins_attained {teams : List Team} {winners : List String}
    (h : ∃ t ∈ teams, t.name ∈ winners) :
    ∃ t ∈ teams, t.name ∈ winners ∧ t.tieWins = maxTieWins teams winners := by
  obtain ⟨t0, ht0, hw0⟩ := h
  have hne : (teams.filter (fun t => t.name ∈ winners)).map Team.tieWins ≠ [] := by
    have : t0 ∈ teams.filter (fun t => t.name ∈ winners) :=
      List.mem_filter.mpr ⟨ht0, by simpa using hw0⟩
    intro hnil
    simp only [List.map_eq_nil_iff] at hnil
    rw [hnil] at this
    exact (List.not_mem_nil t0) this
  have hmem := foldl_max_zero_mem hne
  rw [← maxTieWins_eq] at hmem
  obtain ⟨t, ht, htw⟩ := List.mem_map.mp hmem
  have := List.mem_filter.mp ht
  exact ⟨t, this.1, by simpa using this.2, htw⟩

/-! ### Facts about `selectWinners` -/

theorem selectWinners_sorted (ts : List Team) (w : List String) (p : Team → Bool) :
    (selectWinners ts w p).Sorted (· ≤ ·) :=
  sortNames_sorted _

theorem mem_selectWinners {ts : List Team} {w : List String} {p : Team → Bool}
    {n : String} :
    n ∈ selectWinners ts w p ↔ ∃ t ∈ ts, t.name = n ∧ n ∈ w ∧ p t := by
  unfold selectWinners
  rw [mem_sortNames, List.mem_map]
  constructor
  · rintro ⟨t, ht, rfl⟩
    have h := List.mem_filter.mp ht
    have h2 := h.2
    simp only [Bool.and_eq_true, decide_eq_true_eq] at h2
    exact ⟨t, h.1, rfl, h2.1, h2.2⟩
  · rintro ⟨t, ht, rfl, hw, hp⟩
    exact ⟨t, List.mem_filter.mpr ⟨ht, by simp [hw, hp]⟩, rfl⟩

theorem selectWinners_subset {ts : List Team} {w : List String} {p : Team → Bool} :
    selectWinners ts w p ⊆ w := by
  intro n hn
  obtain ⟨t, ht, hname, hw, hp⟩ := mem_selectWinners.mp hn
  exact hw

theorem selectWinners_nodup {ts : List Team} (w : List String) (p : Team → Bool)
    (h : (namesOf ts).Nodup) : (selectWinners ts w p).Nodup := by
  refine sortNames_nodup (List.Nodup.sublist ?_ h)
  exact List.Sublist.map Team.name (List.filter_sublist ts)

theorem selectWinners_ne_nil {ts : List Team} {w : List String} {p : Team → Bool}
    (h : ∃ t ∈ ts, t.name ∈ w ∧ p t) : selectWinners ts w p ≠ [] := by
  obtain ⟨t, ht, hw, hp⟩ := h
  intro hnil
  have : t.name ∈ selectWinners ts w p := mem_selectWinners.mpr ⟨t, ht, rfl, hw, hp⟩
  rw [hnil] at this
  exact (List.not_mem_nil _) this

theorem selectWinners_length_lt {ts : List Team} {w : List String} {p : Team → Bool}
    (hts : (namesOf ts).Nodup) (hs : w.Sorted (· ≤ ·))
    (hne : selectWinners ts w p ≠ w) :
    (selectWinners ts w p).length < w.length :=
  sorted_length_lt selectWinners_subset (selectWinners_nodup w p hts)
    (selectWinners_sorted ts w p) hs hne

theorem maxTieWins_pos_attained {ts : List Team} {w : List String}
    (h : 0 < maxTieWins ts w) :
    ∃ t ∈ ts, t.name ∈ w ∧ t.tieWins = maxTieWins ts w := by
  cases hf : ts.filter (fun t => t.name ∈ w) with
  | nil =>
    exfalso
    unfold maxTieWins at h
    rw [hf] at h
    simp at h
  | cons t l =>
    have ht : t ∈ ts.filter (fun t => t.name ∈ w) := by rw [hf]; exact List.mem_cons_self _ _
    have h' := List.mem_filter.mp ht
    exact maxTieWins_attained ⟨t, h'.1, by simpa using h'.2⟩

theorem exists_mem_name {ts : List Team} {n : String} (h : n ∈ namesOf ts) :
    ∃ t ∈ ts, t.name = n := by
  obtain ⟨t, ht, rfl⟩ := List.mem_map.mp h
  exact ⟨t, ht, rfl⟩

/-- What a positive shrinking step guarantees about its `newWinners`. -/
def GoodShrink (w nw : List String) : Prop :=
  List.Sorted (· ≤ ·) nw ∧ nw.Nodup ∧ nw ⊆ w ∧ nw ≠ [] ∧ nw ≠ w

theorem goodShrink_of_select {ts : List Team} {w : List String} {p : Team → Bool}
    (hts : (namesOf ts).Nodup) (hne : selectWinners ts w p ≠ w)
    (hex : ∃ t ∈ ts, t.name ∈ w ∧ p t) : GoodShrink w (selectWinners ts w p) :=
  ⟨selectWinners_sorted ts w p, selectWinners_nodup w p hts, selectWinners_subset,
   selectWinners_ne_nil hex, hne⟩

/-! ### Step-level specifications for `resolveTiebreaker` -/

theorem tieredLevelStep_spec (games : List Game) (w co : List String)
    (ts : List Team) (level : ℕ) (hts : (namesOf ts).Nodup) :
    namesOf (tieredLevelStep games w co ts level).1 = namesOf ts ∧
    ∀ nw, (tieredLevelStep games w co ts level).2 = some nw → GoodShrink w nw := by
  simp only [tieredLevelStep]
  split
  · exact ⟨rfl, by intro nw h; exact absurd h (by simp)⟩
  · have hnames := namesOf_getRecordVsCommonOpponents games ts w
      (((ts.filter (fun t => t.seasonWins == level && t.name ∈ co)).map Team.name))
    split
    · split
      · refine ⟨hnames, ?_⟩
        intro nw h
        simp only [Option.some.injEq] at h
        subst h
        next hm hnw =>
        refine goodShrink_of_select (hnames ▸ hts) hnw ?_
        obtain ⟨t, ht, htw, hm'⟩ := maxTieWins_pos_attained hm
        exact ⟨t, ht, htw, by simp [hm']⟩
      · exact ⟨hnames, by intro nw h; exact absurd h (by simp)⟩
    · exact ⟨hnames, by intro nw h; exact absurd h (by simp)⟩

theorem tieredLoop_spec (games : List Game) (w co : List String) :
    ∀ (level : ℕ) (ts : List Team), (namesOf ts).Nodup →
      namesOf (tieredLoop games w co level ts).1 = namesOf ts ∧
      ∀ nw, (tieredLoop games w co level ts).2 = some nw → GoodShrink w nw := by
  intro level
  induction level with
  | zero => intro ts hts; exact tieredLevelStep_spec games w co ts 0 hts
  | succ l ih =>
    intro ts hts
    have hstep := tieredLevelStep_spec games w co ts (l + 1) hts
    rcases hres : tieredLevelStep games w co ts (l + 1) with ⟨ts1, onw⟩
    rw [hres] at hstep
    simp only [tieredLoop, hres]
    cases onw with
    | some nw =>
      simp only [Option.isSome_some, if_true]
      refine ⟨hstep.1, ?_⟩
      intro nw2 h
      simp only [Option.some.injEq] at h
      subst h
      exact hstep.2 _ rfl
    | none =>
      simp only [Option.isSome_none, Bool.false_eq_true, if_false]
      have hts1 : namesOf ts1 = namesOf ts := hstep.1
      have hrec := ih ts1 (hts1 ▸ hts)
      exact ⟨hrec.1.trans hts1, hrec.2⟩

theorem step3All_spec (games : List Game) (ts : List Team) (w co : List String)
    (hts : (namesOf ts).Nodup) :
    namesOf (step3All games ts w co).1 = namesOf ts ∧
    ((step3All games ts w co).2 = w ∨ GoodShrink w (step3All games ts w co).2) := by
  simp only [step3All]
  split
  · have hnames := namesOf_getRecordVsCommonOpponents games ts w co
    split
    · split
      · next hm hnw =>
        refine ⟨hnames, Or.inr ?_⟩
        refine goodShrink_of_select (hnames ▸ hts) hnw ?_
        obtain ⟨t, ht, htw, hm'⟩ := maxTieWins_pos_attained hm
        exact ⟨t, ht, htw, by simp [hm']⟩
      · exact ⟨hnames, Or.inl rfl⟩
    · exact ⟨hnames, Or.inl rfl⟩
  · exact ⟨rfl, Or.inl rfl⟩

theorem step4Strength_spec (games : List Game) (ts : List Team) (w : List String)
    (hts : (namesOf ts).Nodup) (hex : ∃ n ∈ w, n ∈ namesOf ts) :
    namesOf (step4Strength games ts w).1 = namesOf ts ∧
    ((step4Strength games ts w).2 = w ∨ GoodShrink w (step4Strength games ts w).2) := by
  simp only [step4Strength]
  have hnames := namesOf_calculateOpponentStrength games ts w
  split
  · next hnw =>
    refine ⟨hnames, Or.inr ?_⟩
    refine goodShrink_of_select (hnames ▸ hts) hnw ?_
    obtain ⟨n, hnw', hnn⟩ := hex
    obtain ⟨t, ht, rfl⟩ := exists_mem_name (hnames.symm ▸ hnn)
    obtain ⟨t', ht', htn', htw'⟩ := maxTieWins_attained ⟨t, ht, hnw'⟩
    exact ⟨t', ht', htn', by simp [htw']⟩
  · exact ⟨hnames, Or.inl rfl⟩

/-! ### The two-team branch -/

/-- `g` is the fixture between `a` and `b`, in either stored orientation. -/
def pairMatch (g : Game) (a b : String) : Prop :=
  (g.home = a ∧ g.away = b) ∨ (g.home = b ∧ g.away = a)

instance (g : Game) (a b : String) : Decidable (pairMatch g a b) := by
  unfold pairMatch; infer_instance

/-- The side the recorded `result` declares the winner: home on `result = 1`,
away otherwise (exactly the two-team head-to-head reading of `game[3]`). -/
def winnerOfGame (g : Game) : String :=
  if g.result = 1 then g.home else g.away

theorem headToHeadWinner_mem {games : List Game} {a b w : String}
    (h : headToHeadWinner games a b = some w) : w = a ∨ w = b := by
  induction games with
  | nil => simp [headToHeadWinner] at h
  | cons g gs ih =>
    simp only [headToHeadWinner] at h
    split at h
    · simp only [Option.some.injEq] at h
      subst h
      split
      · exact Or.inl rfl
      · exact Or.inr rfl
    · split at h
      · simp only [Option.some.injEq] at h
        subst h
        split
        · exact Or.inr rfl
        · exact Or.inl rfl
      · exact ih h

/-- When every fixture between `a` and `b` was won by `A`, the head-to-head
scan returns `A` (the scan stops at the first such fixture). -/
theorem headToHeadWinner_all_won {games : List Game} {a b A : String}
    (hex : ∃ g ∈ games, pairMatch g a b)
    (hall : ∀ g ∈ games, pairMatch g a b → winnerOfGame g = A) :
    headToHeadWinner games a b = some A := by
  induction games with
  | nil => obtain ⟨g, hg, -⟩ := hex; exact absurd hg (List.not_mem_nil g)
  | cons g gs ih =>
    simp only [headToHeadWinner]
    by_cases h1 : g.home = a ∧ g.away = b
    · rw [if_pos h1]
      have hw := hall g (List.mem_cons_self _ _) (Or.inl h1)
      unfold winnerOfGame at hw
      rw [← h1.1, ← h1.2, hw]
    · rw [if_neg h1]
      by_cases h2 : g.home = b ∧ g.away = a
      · rw [if_pos h2]
        have hw := hall g (List.mem_cons_self _ _) (Or.inr h2)
        unfold winnerOfGame at hw
        rw [← h2.1, ← h2.2, hw]
      · rw [if_neg h2]
        refine ih ?_ ?_
        · obtain ⟨g', hg', hm'⟩ := hex
          rcases List.mem_cons.mp hg' with rfl | hg'
          · exact absurd hm' (by simp [pairMatch, h1, h2])
          · exact ⟨g', hg', hm'⟩
        · intro g' hg' hm'
          exact hall g' (List.mem_cons_of_mem _ hg') hm'

theorem sorted_pair {a b : String} (h : a ≤ b) : List.Sorted (· ≤ ·) [a, b] :=
  List.sorted_cons.mpr ⟨by intro y hy; rw [List.mem_singleton] at hy; subst hy; exact h,
    List.sorted_singleton b⟩

theorem length_one_eq {l : List String} (h : l.length = 1) : ∃ w, l = [w] := by
  match l, h with
  | [w], _ => exact ⟨w, rfl⟩

theorem length_two_sorted_eq {l : List String} (hs : List.Sorted (· ≤ ·) l)
    (hn : l.Nodup) (h : l.length = 2) : ∃ a b, a < b ∧ l = [a, b] := by
  match l, h with
  | [a, b], _ =>
    refine ⟨a, b, ?_, rfl⟩
    have h1 : a ≤ b := List.rel_of_sorted_cons hs b (by simp)
    have h2 : a ≠ b := by simpa using (List.nodup_cons.mp hn).1
    exact lt_of_le_of_ne h1 h2

/-- A `GoodShrink` of the pair `[a, b]` is `[a]` or `[b]`. -/
theorem goodShrink_pair {a b : String} {nw : List String} (hab : a < b)
    (h : GoodShrink [a, b] nw) : nw = [a] ∨ nw = [b] := by
  obtain ⟨hs, hn, hsub, hne, hnew⟩ := h
  have hcl := subset_pair_classify hab
    (fun x hx => by simpa using hsub hx) hn hs
  rcases hcl with h | h | h | h
  · exact absurd h hne
  · exact Or.inl h
  · exact Or.inr h
  · exact absurd h hnew

theorem twoTeamSteps_classify (games : List Game) (ts : List Team) (a b : String)
    (hab : a < b) (ha : a ∈ namesOf ts) (hts : (namesOf ts).Nodup) :
    twoTeamSteps games ts [a, b] = [a] ∨ twoTeamSteps games ts [a, b] = [b] ∨
    twoTeamSteps games ts [a, b] = [a, b] := by
  simp only [twoTeamSteps]
  cases hh : headToHeadWinner games a b with
  | some w =>
    rcases headToHeadWinner_mem hh with rfl | rfl <;> simp
  | none =>
    simp only [List.length_cons, List.length_nil]
    norm_num
    rcases htl : tieredLoop games [a, b] (findCommonOpponents games ts [a, b])
        (maxSeasonWins ts) ts with ⟨ts1, onw⟩
    have hloop := tieredLoop_spec games [a, b] (findCommonOpponents games ts [a, b])
      (maxSeasonWins ts) ts hts
    rw [htl] at hloop
    have hts1 : (namesOf ts1).Nodup := hloop.1 ▸ hts
    cases onw with
    | some nw =>
      rcases goodShrink_pair hab (hloop.2 nw rfl) with rfl | rfl <;> simp
    | none =>
      simp only [Option.getD_none, List.length_cons, List.length_nil]
      norm_num
      have hs3 := step3All_spec games ts1 [a, b] (findCommonOpponents games ts [a, b]) hts1
      rcases hs3.2 with h3 | h3
      · rw [h3]
        simp only [List.length_cons, List.length_nil]
        norm_num
        have hts3 : (namesOf (step3All games ts1 [a, b]
            (findCommonOpponents games ts [a, b])).1).Nodup := hs3.1 ▸ hts1
        have hs4 := step4Strength_spec games
          (step3All games ts1 [a, b] (findCommonOpponents games ts [a, b])).1 [a, b] hts3
          ⟨a, by simp, by rw [hs3.1, hloop.1]; exact ha⟩
        rcases hs4.2 with h4 | h4
        · rw [h4]; simp
        · rcases goodShrink_pair hab h4 with h4' | h4' <;> rw [h4'] <;> simp
      · rcases goodShrink_pair hab h3 with h3' | h3' <;> rw [h3'] <;> simp

theorem getD_mem {l : List String} {i : ℕ} (h : i < l.length) (d : String) :
    l.getD i d ∈ l := by
  rw [List.getD_eq_getElem?_getD, List.getElem?_eq_getElem h]
  simp only [Option.getD_some]
  exact List.getElem_mem h

/-- The two-team procedure always emits a single winner from the pair,
with the fallback flag set exactly when it consumed a random pick. -/
theorem resolveTwoTeamAux_spec (games : List Game) (ts : List Team) (a b : String)
    (pick : ℕ → ℕ) (idx : ℕ) (hab : a < b) (ha : a ∈ namesOf ts)
    (hts : (namesOf ts).Nodup) :
    ∃ w, w ∈ [a, b] ∧
      (resolveTwoTeamAux games ts [a, b] pick idx = ⟨[w], false, 0⟩ ∨
       resolveTwoTeamAux games ts [a, b] pick idx = ⟨[w], true, 1⟩) := by
  simp only [resolveTwoTeamAux]
  rcases twoTeamSteps_classify games ts a b hab ha hts with h | h | h <;> rw [h]
  · exact ⟨a, by simp, Or.inl (by simp)⟩
  · exact ⟨b, by simp, Or.inl (by simp)⟩
  · refine ⟨[a, b].getD (pick idx % [a, b].length) "", ?_, Or.inr (by simp)⟩
    exact getD_mem (Nat.mod_lt _ (by simp)) ""

/-! ### The multi-team branch -/

theorem GoodShrink.length_lt {w nw : List String} (hw : List.Sorted (· ≤ ·) w)
    (h : GoodShrink w nw) : nw.length < w.length :=
  sorted_length_lt h.2.2.1 h.2.1 h.1 hw h.2.2.2.2

theorem multiIterRest_spec (games : List Game) (t1 : List Team) (w : List String)
    (hts1 : (namesOf t1).Nodup) (hsub : w ⊆ namesOf t1) (hne : w ≠ []) :
    (∀ t2 w2, multiIterRest games t1 w = .shrunk t2 w2 →
       namesOf t2 = namesOf t1 ∧ GoodShrink w w2) ∧
    (∀ t2, multiIterRest games t1 w = .randomPick t2 → namesOf t2 = namesOf t1) := by
  simp only [multiIterRest]
  rcases htl : tieredLoop games w (findCommonOpponents games t1 w) (maxSeasonWins t1) t1
    with ⟨ts1, onw⟩
  have hloop := tieredLoop_spec games w (findCommonOpponents games t1 w)
    (maxSeasonWins t1) t1 hts1
  rw [htl] at hloop
  cases onw with
  | some nw =>
    constructor
    · intro t2 w2 h
      cases h
      exact ⟨hloop.1, hloop.2 nw rfl⟩
    · intro t2 h; exact MultiStep.noConfusion h
  | none =>
    have htsl : (namesOf ts1).Nodup := hloop.1 ▸ hts1
    have hs3 := step3All_spec games ts1 w (findCommonOpponents games t1 w) htsl
    by_cases h3 : (step3All games ts1 w (findCommonOpponents games t1 w)).2 ≠ w
    · rw [if_pos h3]
      constructor
      · intro t2 w2 h
        cases h
        rcases hs3.2 with he | hg
        · exact absurd he h3
        · exact ⟨hs3.1.trans hloop.1, hg⟩
      · intro t2 h; exact MultiStep.noConfusion h
    · rw [if_neg h3]
      have hts3 : (namesOf (step3All games ts1 w (findCommonOpponents games t1 w)).1).Nodup :=
        hs3.1 ▸ htsl
      have hex : ∃ n ∈ w, n ∈ namesOf (step3All games ts1 w (findCommonOpponents games t1 w)).1 := by
        obtain ⟨n, hn⟩ := List.exists_mem_of_ne_nil w hne
        refine ⟨n, hn, ?_⟩
        rw [hs3.1, hloop.1]
        exact hsub hn
      have hs4 := step4Strength_spec games
        (step3All games ts1 w (findCommonOpponents games t1 w)).1 w hts3 hex
      by_cases h4 : (step4Strength games
          (step3All games ts1 w (findCommonOpponents games t1 w)).1 w).2 ≠ w
      · rw [if_pos h4]
        constructor
        · intro t2 w2 h
          cases h
          rcases hs4.2 with he | hg
          · exact absurd he h4
          · exact ⟨hs4.1.trans (hs3.1.trans hloop.1), hg⟩
        · intro t2 h; exact MultiStep.noConfusion h
      · rw [if_neg h4]
        constructor
        · intro t2 w2 h; exact MultiStep.noConfusion h
        · intro t2 h
          cases h
          exact hs4.1.trans (hs3.1.trans hloop.1)

/-- What one body of the multi-team loop guarantees: a `shrunk` step emits a
strictly smaller sorted duplicate-free sub-candidate list, and both outcomes
preserve the team-name column. -/
theorem multiIter_spec (games : List Game) (ts : List Team) (w : List String)
    (hts : (namesOf ts).Nodup)
    (hsub : w ⊆ namesOf ts) (hne : w ≠ []) :
    (∀ t2 w2, multiIter games ts w = .shrunk t2 w2 →
       namesOf t2 = namesOf ts ∧ GoodShrink w w2) ∧
    (∀ t2, multiIter games ts w = .randomPick t2 → namesOf t2 = namesOf ts) := by
  have hnames1 := namesOf_getHeadToHeadRecord games ts w
  have hts1 : (namesOf (getHeadToHeadRecord games ts w)).Nodup := hnames1 ▸ hts
  have hcand : ∃ t ∈ getHeadToHeadRecord games ts w, t.name ∈ w := by
    obtain ⟨n, hn⟩ := List.exists_mem_of_ne_nil w hne
    obtain ⟨t, ht, rfl⟩ := exists_mem_name (show n ∈ namesOf (getHeadToHeadRecord games ts w)
      from hnames1 ▸ hsub hn)
    exact ⟨t, ht, hn⟩
  simp only [multiIter]
  by_cases hcnt : sumTieWins (getHeadToHeadRecord games ts w) w
      = (w.length - 1) * w.length / 2
  · rw [if_pos hcnt]
    by_cases hnw : selectWinners (getHeadToHeadRecord games ts w) w
        (fun t => t.tieWins == maxTieWins (getHeadToHeadRecord games ts w) w) ≠ w
    · rw [if_pos hnw]
      constructor
      · intro t2 w2 h
        cases h
        refine ⟨hnames1, ?_⟩
        obtain ⟨t, ht, htw, htm⟩ := maxTieWins_attained hcand
        exact goodShrink_of_select hts1 hnw ⟨t, ht, htw, by simp [htm]⟩
      · intro t2 h; exact MultiStep.noConfusion h
    · rw [if_neg hnw]
      have hrest := multiIterRest_spec games (getHeadToHeadRecord games ts w) w hts1
        (by rw [hnames1]; exact hsub) hne
      constructor
      · intro t2 w2 h
        obtain ⟨hn2, hg⟩ := hrest.1 t2 w2 h
        exact ⟨hn2.trans hnames1, hg⟩
      · intro t2 h
        exact (hrest.2 t2 h).trans hnames1
  · rw [if_neg hcnt]
    by_cases hc : selectWinners (getHeadToHeadRecord games ts w) w
          (fun t => t.tieWins == w.length - 1) ≠ w
        ∧ selectWinners (getHeadToHeadRecord games ts w) w
          (fun t => t.tieWins == w.length - 1) ≠ []
    · rw [if_pos hc]
      constructor
      · intro t2 w2 h
        cases h
        exact ⟨hnames1, selectWinners_sorted _ _ _, selectWinners_nodup _ _ hts1,
          selectWinners_subset, hc.2, hc.1⟩
      · intro t2 h; exact MultiStep.noConfusion h
    · rw [if_neg hc]
      have hrest := multiIterRest_spec games (getHeadToHeadRecord games ts w) w hts1
        (by rw [hnames1]; exact hsub) hne
      constructor
      · intro t2 w2 h
        obtain ⟨hn2, hg⟩ := hrest.1 t2 w2 h
        exact ⟨hn2.trans hnames1, hg⟩
      · intro t2 h
        exact (hrest.2 t2 h).trans hnames1

/-- Invariant carried by the multi-team loop's result. -/
def MultiLoopInv (ts : List Team) (w : List String) (r : List Team × TieResult) : Prop :=
  namesOf r.1 = namesOf ts ∧ List.Sorted (· ≤ ·) r.2.winners ∧ r.2.winners.Nodup ∧
  r.2.winners ⊆ w ∧ r.2.winners ≠ [] ∧ r.2.winners.length ≤ 2 ∧
  (r.2.usedRandom = true → (∃ x, r.2.winners = [x]) ∧ r.2.picks = 1) ∧
  (r.2.usedRandom = false → r.2.picks = 0)

theorem multiLoop_spec (games : List Game) (pick : ℕ → ℕ) (idx : ℕ) :
    ∀ (fuel : ℕ) (ts : List Team) (w : List String),
      (namesOf ts).Nodup → List.Sorted (· ≤ ·) w → w.Nodup → w ⊆ namesOf ts →
      w ≠ [] → w.length ≤ fuel + 2 →
      MultiLoopInv ts w (multiLoop games pick idx fuel ts w) := by
  intro fuel
  induction fuel with
  | zero =>
    intro ts w hts hw hwn hsub hne hlen
    have hlen2 : w.length ≤ 2 := hlen
    simp only [multiLoop, if_pos hlen2]
    exact ⟨rfl, hw, hwn, fun x hx => hx, hne, hlen2,
      fun h => by simp at h, fun _ => rfl⟩
  | succ f ih =>
    intro ts w hts hw hwn hsub hne hlen
    by_cases hlen2 : w.length ≤ 2
    · simp only [multiLoop, if_pos hlen2]
      exact ⟨rfl, hw, hwn, fun x hx => hx, hne, hlen2,
        fun h => by simp at h, fun _ => rfl⟩
    · simp only [multiLoop, if_neg hlen2]
      have hspec := multiIter_spec games ts w hts hsub hne
      cases hit : multiIter games ts w with
      | shrunk t2 w2 =>
        obtain ⟨hn2, hg⟩ := hspec.1 t2 w2 hit
        have hlt := hg.length_lt hw
        have hrec := ih t2 w2 (hn2 ▸ hts) hg.1 hg.2.1
          (fun x hx => hn2 ▸ hsub (hg.2.2.1 hx)) hg.2.2.2.1
          (by omega)
        obtain ⟨ha1, ha2, ha3, ha4, ha5, ha6, ha7, ha8⟩ := hrec
        exact ⟨ha1.trans hn2, ha2, ha3, fun x hx => hg.2.2.1 (ha4 hx), ha5, ha6, ha7, ha8⟩
      | randomPick t2 =>
        have hn2 := hspec.2 t2 hit
        have hpos : 0 < w.length := by omega
        refine ⟨hn2, List.sorted_singleton _, List.nodup_singleton _, ?_, by simp, by simp,
          fun _ => ⟨⟨_, rfl⟩, rfl⟩, fun h => by simp at h⟩
        intro x hx
        rw [List.mem_singleton] at hx
        subst hx
        exact getD_mem (Nat.mod_lt _ hpos) ""

theorem multiLoop_fuel (games : List Game) (pick : ℕ → ℕ) (idx : ℕ) :
    ∀ (fuel : ℕ) (ts : List Team) (w : List String),
      (namesOf ts).Nodup → List.Sorted (· ≤ ·) w → w ⊆ namesOf ts →
      w ≠ [] → w.length ≤ fuel + 2 →
      ∀ j, multiLoop games pick idx (fuel + j) ts w = multiLoop games pick idx fuel ts w := by
  intro fuel
  induction fuel with
  | zero =>
    intro ts w hts hw hsub hne hlen j
    have hlen2 : w.length ≤ 2 := hlen
    cases j with
    | zero => rfl
    | succ j' => simp only [multiLoop, if_pos hlen2]
  | succ f ih =>
    intro ts w hts hw hsub hne hlen j
    by_cases hlen2 : w.length ≤ 2
    · cases hj : f + 1 + j with
      | zero => omega
      | succ k => simp only [multiLoop, if_pos hlen2]
    · have hj : f + 1 + j = (f + j) + 1 := by omega
      rw [hj]
      simp only [multiLoop, if_neg hlen2]
      have hspec := multiIter_spec games ts w hts hsub hne
      cases hit : multiIter games ts w with
      | shrunk t2 w2 =>
        obtain ⟨hn2, hg⟩ := hspec.1 t2 w2 hit
        have hlt := hg.length_lt hw
        exact ih t2 w2 (hn2 ▸ hts) hg.1
          (fun x hx => hn2 ▸ hsub (hg.2.2.1 hx)) hg.2.2.2.1 (by omega) j
      | randomPick t2 => rfl

/-- Master specification of `resolveTiebreaker`: a unique winner from the
candidate list, a `⟨[w], false, 0⟩` or `⟨[w], true, 1⟩` result shape. -/
theorem resolveTiebreaker_master (games : List Game) (ts : List Team)
    (tied : List String) (pick : ℕ → ℕ) (idx : ℕ)
    (h1 : tied ≠ []) (h2 : tied.Nodup) (h3 : tied ⊆ namesOf ts)
    (h4 : (namesOf ts).Nodup) :
    ∃ w, w ∈ tied ∧
      (resolveTiebreaker games ts tied pick idx = ⟨[w], false, 0⟩ ∨
       resolveTiebreaker games ts tied pick idx = ⟨[w], true, 1⟩) := by
  simp only [resolveTiebreaker]
  have hsort : ∀ x, x ∈ sortNames tied ↔ x ∈ tied := fun x => mem_sortNames
  have hsorted := sortNames_sorted tied
  have hnodup := sortNames_nodup h2
  by_cases hl1 : (sortNames tied).length = 1
  · rw [if_pos hl1]
    obtain ⟨w, hw⟩ := length_one_eq hl1
    exact ⟨w, (hsort w).mp (hw ▸ List.mem_singleton_self w), Or.inl (by rw [hw])⟩
  · rw [if_neg hl1]
    by_cases hl2 : (sortNames tied).length = 2
    · rw [if_pos hl2]
      obtain ⟨a, b, hab, heq⟩ := length_two_sorted_eq hsorted hnodup hl2
      have ha : a ∈ namesOf ts := h3 ((hsort a).mp (heq ▸ (by simp : a ∈ [a, b])))
      obtain ⟨w, hwm, hres⟩ := resolveTwoTeamAux_spec games ts a b pick idx hab ha h4
      rw [heq]
      refine ⟨w, ?_, hres⟩
      have : w ∈ sortNames tied := heq ▸ hwm
      exact (hsort w).mp this
    · rw [if_neg hl2]
      have hne : sortNames tied ≠ [] := by
        intro h
        rw [h] at hsort
        obtain ⟨x, hx⟩ := List.exists_mem_of_ne_nil tied h1
        exact (List.not_mem_nil x) ((hsort x).mpr hx)
      have hsub : sortNames tied ⊆ namesOf ts := fun x hx => h3 ((hsort x).mp hx)
      have hinv := multiLoop_spec games pick idx (sortNames tied).length ts (sortNames tied)
        h4 hsorted hnodup hsub hne (by omega)
      obtain ⟨ha1, ha2, ha3, ha4, ha5, ha6, ha7, ha8⟩ := hinv
      by_cases hrl : (multiLoop games pick idx (sortNames tied).length ts
          (sortNames tied)).2.winners.length = 2
      · rw [if_pos hrl]
        obtain ⟨a, b, hab, heq⟩ := length_two_sorted_eq ha2 ha3 hrl
        have ha : a ∈ namesOf (multiLoop games pick idx (sortNames tied).length ts
            (sortNames tied)).1 := by
          rw [ha1]
          exact hsub (ha4 (heq ▸ (by simp : a ∈ [a, b])))
        have h4' : (namesOf (multiLoop games pick idx (sortNames tied).length ts
            (sortNames tied)).1).Nodup := ha1 ▸ h4
        rw [heq, sortNames_eq_of_sorted (sorted_pair hab.le)]
        obtain ⟨w, hwm, hres⟩ := resolveTwoTeamAux_spec games
          (multiLoop games pick idx (sortNames tied).length ts (sortNames tied)).1
          a b pick idx hab ha h4'
        refine ⟨w, ?_, hres⟩
        exact (hsort w).mp (ha4 (heq ▸ hwm))
      · rw [if_neg hrl]
        cases hu : (multiLoop games pick idx (sortNames tied).length ts
            (sortNames tied)).2.usedRandom with
        | true =>
          obtain ⟨⟨x, hx⟩, hp⟩ := ha7 hu
          refine ⟨x, (hsort x).mp (ha4 (hx ▸ List.mem_singleton_self x)), Or.inr ?_⟩
          cases hr : (multiLoop games pick idx (sortNames tied).length ts
              (sortNames tied)).2 with
          | mk ws us ps =>
            rw [hr] at hx hu hp
            simp only at hx hu hp
            rw [hx, hu, hp]
        | false =>
          have hp := ha8 hu
          have hlen0 : (multiLoop games pick idx (sortNames tied).length ts
              (sortNames tied)).2.winners.length ≠ 0 :=
            fun h => ha5 (List.eq_nil_of_length_eq_zero h)
          have hlone : (multiLoop games pick idx (sortNames tied).length ts
              (sortNames tied)).2.winners.length = 1 := by omega
          obtain ⟨x, hx⟩ := length_one_eq hlone
          refine ⟨x, (hsort x).mp (ha4 (hx ▸ List.mem_singleton_self x)), Or.inl ?_⟩
          cases hr : (multiLoop games pick idx (sortNames tied).length ts
              (sortNames tied)).2 with
          | mk ws us ps =>
            rw [hr] at hx hu hp
            simp only at hx hu hp
            rw [hx, hu, hp]

/-! ### Independence from the random sources -/

theorem resolveTwoTeamAux_pick_indep (games : List Game) (ts : List Team)
    (w0 : List String) (pick : ℕ → ℕ) (idx : ℕ) (pick' : ℕ → ℕ) (idx' : ℕ)
    (h : (resolveTwoTeamAux games ts w0 pick idx).usedRandom = false) :
    resolveTwoTeamAux games ts w0 pick' idx' = resolveTwoTeamAux games ts w0 pick idx := by
  simp only [resolveTwoTeamAux] at h ⊢
  by_cases h1 : (twoTeamSteps games ts w0).length = 1
  · simp only [if_pos h1]
  · simp only [if_neg h1] at h ⊢
    by_cases h2 : 1 < (twoTeamSteps games ts w0).length
    · rw [if_pos h2] at h; simp at h
    · simp only [if_neg h2]

theorem resolveTwoTeamAux_used_picks (games : List Game) (ts : List Team)
    (w0 : List String) (pick : ℕ → ℕ) (idx : ℕ) :
    (resolveTwoTeamAux games ts w0 pick idx).picks
      = (if (resolveTwoTeamAux games ts w0 pick idx).usedRandom then 1 else 0) := by
  simp only [resolveTwoTeamAux]
  by_cases h1 : (twoTeamSteps games ts w0).length = 1
  · simp only [if_pos h1]; rfl
  · simp only [if_neg h1]
    by_cases h2 : 1 < (twoTeamSteps games ts w0).length
    · simp only [if_pos h2]; rfl
    · simp only [if_neg h2]; rfl

theorem multiLoop_used_len (games : List Game) (pick : ℕ → ℕ) (idx : ℕ) :
    ∀ (fuel : ℕ) (ts : List Team) (w : List String),
      (multiLoop games pick idx fuel ts w).2.usedRandom = true →
      (multiLoop games pick idx fuel ts w).2.winners.length = 1 := by
  intro fuel
  induction fuel with
  | zero =>
    intro ts w h
    by_cases hlen : w.length ≤ 2 <;>
      simp only [multiLoop, hlen, if_true, if_false, reduceIte] at h <;> simp at h
  | succ f ih =>
    intro ts w h
    by_cases hlen : w.length ≤ 2
    · simp only [multiLoop, if_pos hlen] at h; simp at h
    · simp only [multiLoop, if_neg hlen] at h ⊢
      cases hit : multiIter games ts w with
      | shrunk t2 w2 => rw [hit] at h; exact ih t2 w2 h
      | randomPick t2 => rfl

theorem multiLoop_pick_indep (games : List Game) (pick : ℕ → ℕ) (idx : ℕ)
    (pick' : ℕ → ℕ) (idx' : ℕ) :
    ∀ (fuel : ℕ) (ts : List Team) (w : List String),
      (multiLoop games pick idx fuel ts w).2.usedRandom = false →
      multiLoop games pick' idx' fuel ts w = multiLoop games pick idx fuel ts w := by
  intro fuel
  induction fuel with
  | zero =>
    intro ts w _
    by_cases hlen : w.length ≤ 2 <;> simp only [multiLoop, hlen, if_true, if_false, reduceIte]
  | succ f ih =>
    intro ts w h
    by_cases hlen : w.length ≤ 2
    · simp only [multiLoop, if_pos hlen]
    · simp only [multiLoop, if_neg hlen] at h ⊢
      cases hit : multiIter games ts w with
      | shrunk t2 w2 => rw [hit] at h; exact ih t2 w2 h
      | randomPick t2 => rw [hit] at h; exact Bool.noConfusion h

theorem resolveTiebreaker_pick_indep (games : List Game) (ts : List Team)
    (tied : List String) (pick : ℕ → ℕ) (idx : ℕ) (pick' : ℕ → ℕ) (idx' : ℕ)
    (h : (resolveTiebreaker games ts tied pick idx).usedRandom = false) :
    resolveTiebreaker games ts tied pick' idx' = resolveTiebreaker games ts tied pick idx := by
  simp only [resolveTiebreaker] at h ⊢
  by_cases hl1 : (sortNames tied).length = 1
  · simp only [if_pos hl1]
  · simp only [if_neg hl1] at h ⊢
    by_cases hl2 : (sortNames tied).length = 2
    · simp only [if_pos hl2] at h ⊢
      exact resolveTwoTeamAux_pick_indep games ts (sortNames tied) pick idx pick' idx' h
    · simp only [if_neg hl2] at h ⊢
      by_cases hrl : (multiLoop games pick idx (sortNames tied).length ts
          (sortNames tied)).2.winners.length = 2
      · have hused : (multiLoop games pick idx (sortNames tied).length ts
            (sortNames tied)).2.usedRandom = false := by
          cases hu : (multiLoop games pick idx (sortNames tied).length ts
              (sortNames tied)).2.usedRandom with
          | false => rfl
          | true =>
            have := multiLoop_used_len games pick idx (sortNames tied).length ts
              (sortNames tied) hu
            omega
        have hml := multiLoop_pick_indep games pick idx pick' idx'
          (sortNames tied).length ts (sortNames tied) hused
        rw [hml]
        simp only [if_pos hrl] at h ⊢
        exact resolveTwoTeamAux_pick_indep games _ _ pick idx pick' idx' h
      · have hused : (multiLoop games pick idx (sortNames tied).length ts
            (sortNames tied)).2.usedRandom = false := by
          rw [if_neg hrl] at h; exact h
        have hml := multiLoop_pick_indep games pick idx pick' idx'
          (sortNames tied).length ts (sortNames tied) hused
        rw [hml]
        simp only [if_neg hrl]

theorem placePass_pick_indep (games : List Game) (pick : ℕ → ℕ) (idx : ℕ)
    (pick' : ℕ → ℕ) (idx' : ℕ) (teams : List Team) (place : ℕ)
    (h : (placePass games pick idx teams place).2.2.1 = false) :
    placePass games pick' idx' teams place = placePass games pick idx teams place := by
  simp only [placePass] at h ⊢
  by_cases ht : findTeamsWithRecord teams (maxUnplacedWins teams) true = []
  · simp only [if_pos ht]
  · simp only [if_neg ht] at h ⊢
    have hr := resolveTiebreaker_pick_indep games teams
      (findTeamsWithRecord teams (maxUnplacedWins teams) true) pick idx pick' idx' h
    rw [hr]

theorem determineStandings_pick_indep (games : List Game) (teams : List Team)
    (pick : ℕ → ℕ) (idx : ℕ) (pick' : ℕ → ℕ) (idx' : ℕ)
    (h : (determineStandings games teams pick idx).randomUsed = 0) :
    determineStandings games teams pick' idx' = determineStandings games teams pick idx := by
  have h1 : (placePass games pick idx teams 1).2.2.1 = false := by
    simp only [determineStandings] at h
    by_cases hb : (placePass games pick idx teams 1).2.2.1 = false
    · exact hb
    · rw [Bool.not_eq_false] at hb
      rw [hb] at h
      simp at h
  have h2 : (placePass games pick (idx + (placePass games pick idx teams 1).2.2.2)
      (placePass games pick idx teams 1).1 2).2.2.1 = false := by
    simp only [determineStandings] at h
    by_cases hb : (placePass games pick (idx + (placePass games pick idx teams 1).2.2.2)
        (placePass games pick idx teams 1).1 2).2.2.1 = false
    · exact hb
    · rw [Bool.not_eq_false] at hb
      rw [hb] at h
      simp at h
  have hp1 := placePass_pick_indep games pick idx pick' idx' teams 1 h1
  have hp2 := placePass_pick_indep games pick (idx + (placePass games pick idx teams 1).2.2.2)
    pick' (idx' + (placePass games pick' idx' teams 1).2.2.2)
    (placePass games pick idx teams 1).1 2 h2
  rw [hp1] at hp2
  simp only [determineStandings, hp1, hp2]

/-! ### Degenerate (probability 0 or 1) games ignore the draw value -/

theorem simGame_prob01 (g : Game) (teams : List Team) (r r' : ℚ)
    (hp : g.prob = 0 ∨ g.prob = 1) (hr0 : 0 ≤ r) (hr1 : r < 1)
    (hr0' : 0 ≤ r') (hr1' : r' < 1) :
    simGame r g teams = simGame r' g teams := by
  have h1 : (r < g.prob) ↔ (r' < g.prob) := by
    rcases hp with hp | hp <;> rw [hp]
    · exact iff_of_false (not_lt.mpr hr0) (not_lt.mpr hr0')
    · exact iff_of_true hr1 hr1'
  have h2 : (g.prob ≤ r) ↔ (g.prob ≤ r') := by
    rcases hp with hp | hp <;> rw [hp]
    · exact iff_of_true hr0 hr0'
    · exact iff_of_false (not_le.mpr hr1) (not_le.mpr hr1')
  have hstep : simGameStep r g = simGameStep r' g := by
    funext acc t
    simp only [simGameStep, h1, h2]
  simp only [simGame, hstep]

theorem simulateGamesAux_prob01 (draw draw' : ℕ → ℚ)
    (hd : ∀ i, 0 ≤ draw i ∧ draw i < 1) (hd' : ∀ i, 0 ≤ draw' i ∧ draw' i < 1) :
    ∀ (games : List Game) (i i' : ℕ) (ts : List Team),
      (∀ g ∈ games, g.prob = 0 ∨ g.prob = 1) →
      simulateGamesAux draw i games ts = simulateGamesAux draw' i' games ts := by
  intro games
  induction games with
  | nil => intro i i' ts _; rfl
  | cons g gs ih =>
    intro i i' ts hp
    simp only [simulateGamesAux]
    rw [simGame_prob01 g ts (draw i) (draw' i') (hp g (List.mem_cons_self _ _))
      (hd i).1 (hd i).2 (hd' i').1 (hd' i').2]
    rw [ih (i + 1) (i' + 1) (simGame (draw' i') g ts).2
      (fun g' hg' => hp g' (List.mem_cons_of_mem _ hg'))]

theorem simulateGames_prob01 (draw draw' : ℕ → ℚ) (games : List Game)
    (teams : List Team) (hp : ∀ g ∈ games, g.prob = 0 ∨ g.prob = 1)
    (hd : ∀ i, 0 ≤ draw i ∧ draw i < 1) (hd' : ∀ i, 0 ≤ draw' i ∧ draw' i < 1) :
    simulateGames draw games teams = simulateGames draw' games teams :=
  simulateGamesAux_prob01 draw draw' hd hd' games 0 0 (teams.map resetTeam) hp

/-! ### Closed form of the season simulation -/

/-- The per-team effect of one simulated game. -/
def simUpd (r : ℚ) (g : Game) (t : Team) : Team :=
  if g.home = t.name then
    (if r < g.prob then { t with seasonWins := t.seasonWins + 1 } else t)
  else if g.away = t.name then
    (if g.prob ≤ r then { t with seasonWins := t.seasonWins + 1 } else t)
  else t

theorem simGame_fold_teams (r : ℚ) (g : Game) :
    ∀ (ts : List Team) (g0 : Game) (acc : List Team),
      (ts.foldl (simGameStep r g) (g0, acc)).2 = acc ++ ts.map (simUpd r g) := by
  intro ts
  induction ts with
  | nil => intro g0 acc; simp
  | cons t ts ih =>
    intro g0 acc
    rw [List.foldl_cons, List.map_cons]
    simp only [simGameStep, simUpd]
    by_cases h1 : g.home = t.name
    · simp only [if_pos h1]
      by_cases hlt : r < g.prob
      · simp only [if_pos hlt]; rw [ih]; simp
      · simp only [if_neg hlt]; rw [ih]; simp
    · simp only [if_neg h1]
      by_cases h2 : g.away = t.name
      · simp only [if_pos h2]
        by_cases hge : g.prob ≤ r
        · simp only [if_pos hge]; rw [ih]; simp
        · simp only [if_neg hge]; rw [ih]; simp
      · simp only [if_neg h2]; rw [ih]; simp

theorem simGame_fold_game (r : ℚ) (g : Game) :
    ∀ (ts : List Team) (g0 : Game) (acc : List Team),
      (ts.foldl (simGameStep r g) (g0, acc)).1
        = if r < g.prob ∧ g.home ∈ namesOf ts then { g0 with result := 1 } else g0 := by
  intro ts
  induction ts with
  | nil => intro g0 acc; simp [namesOf]
  | cons t ts ih =>
    intro g0 acc
    rw [List.foldl_cons]
    simp only [simGameStep]
    by_cases h1 : g.home = t.name
    · rw [if_pos h1]
      by_cases hlt : r < g.prob
      · rw [if_pos hlt, ih]
        have hmem : g.home ∈ namesOf (t :: ts) := by simp [namesOf, h1]
        by_cases hmem2 : g.home ∈ namesOf ts
        · simp [hlt, hmem, hmem2]
        · simp [hlt, hmem, hmem2]
      · rw [if_neg hlt, ih]
        simp [hlt]
    · rw [if_neg h1]
      have hmem : (g.home ∈ namesOf (t :: ts)) ↔ (g.home ∈ namesOf ts) := by
        simp only [namesOf, List.map_cons, List.mem_cons]
        constructor
        · rintro (h | h)
          · exact absurd h.symm (by intro hc; exact h1 hc.symm)
          · exact h
        · exact Or.inr
      by_cases h2 : g.away = t.name
      · rw [if_pos h2]
        by_cases hge : g.prob ≤ r
        · rw [if_pos hge, ih]; simp only [hmem]
        · rw [if_neg hge, ih]; simp only [hmem]
      · rw [if_neg h2, ih]; simp only [hmem]

theorem simUpd_eq_winner {g : Game} (r : ℚ) (hne : g.home ≠ g.away) (t : Team) :
    simUpd r g t = if t.name = gameWinner r g
      then { t with seasonWins := t.seasonWins + 1 } else t := by
  simp only [simUpd, gameWinner]
  by_cases hlt : r < g.prob
  · simp only [if_pos hlt]
    by_cases h1 : g.home = t.name
    · rw [if_pos h1, if_pos h1.symm]
    · rw [if_neg h1]
      by_cases h2 : g.away = t.name
      · rw [if_pos h2, if_neg (not_le.mpr hlt), if_neg (fun h => h1 h.symm)]
      · rw [if_neg h2, if_neg (fun h => h1 h.symm)]
  · simp only [if_neg hlt]
    have hge : g.prob ≤ r := not_lt.mp hlt
    by_cases h1 : g.home = t.name
    · rw [if_pos h1, if_neg (fun h => hne (h1.trans h))]
    · rw [if_neg h1]
      by_cases h2 : g.away = t.name
      · rw [if_pos h2, if_pos hge, if_pos h2.symm]
      · rw [if_neg h2, if_neg (fun h => h2 h.symm)]

theorem simGame_closed (r : ℚ) (g : Game) (teams : List Team)
    (hin : g.home ∈ namesOf teams) (hne : g.home ≠ g.away) :
    simGame r g teams =
      ({ g with result := if r < g.prob then 1 else 0 },
       teams.map (fun t =>
         if t.name = gameWinner r g then { t with seasonWins := t.seasonWins + 1 } else t)) := by
  unfold simGame
  refine Prod.ext ?_ ?_
  · rw [simGame_fold_game]
    by_cases hlt : r < g.prob
    · simp [hlt, hin]
    · simp [hlt, hin]
  · rw [simGame_fold_teams]
    simp only [List.nil_append]
    exact List.map_congr_left (fun t _ => simUpd_eq_winner r hne t)

theorem simulateGamesAux_closed (draw : ℕ → ℚ) :
    ∀ (games : List Game) (i : ℕ) (ts : List Team),
      (∀ g ∈ games, g.home ∈ namesOf ts ∧ g.home ≠ g.away) →
      simulateGamesAux draw i games ts
        = (simResults draw i games,
           ts.map (fun t =>
             { t with seasonWins := t.seasonWins + winsByName draw i t.name games })) := by
  intro games
  induction games with
  | nil =>
    intro i ts _
    have hid : (fun (t : Team) =>
        { t with seasonWins := t.seasonWins + winsByName draw i t.name [] }) = fun t => t := by
      funext t
      simp [winsByName]
    simp [simulateGamesAux, simResults, hid]
  | cons g gs ih =>
    intro i ts hp
    obtain ⟨hin, hne⟩ := hp g (List.mem_cons_self _ _)
    simp only [simulateGamesAux]
    rw [simGame_closed (draw i) g ts hin hne]
    have hpres : namesOf (ts.map (fun t =>
        if t.name = gameWinner (draw i) g
        then { t with seasonWins := t.seasonWins + 1 } else t)) = namesOf ts := by
      refine namesOf_map _ ?_ _
      intro t
      split <;> rfl
    rw [ih (i + 1) _ (fun g' hg' => ⟨hpres ▸ (hp g' (List.mem_cons_of_mem _ hg')).1,
      (hp g' (List.mem_cons_of_mem _ hg')).2⟩)]
    simp only [simResults, List.map_map]
    refine Prod.ext rfl ?_
    refine List.map_congr_left ?_
    intro t _
    simp only [Function.comp]
    by_cases hw : t.name = gameWinner (draw i) g
    · rw [if_pos hw]
      simp only [winsByName]
      rw [if_pos hw.symm]
      congr 1
      omega
    · rw [if_neg hw]
      simp only [winsByName]
      rw [if_neg (fun h => hw h.symm)]
      congr 1
      omega

/-- Closed form of `simulateGames`: fixture `i`'s result is decided by draw
`i` alone, every team restarts from zero wins / unplaced, and each team's
final win count is the number of fixtures whose winner it is. -/
theorem simulateGames_closed (draw : ℕ → ℚ) (games : List Game) (teams : List Team)
    (hp : ∀ g ∈ games, g.home ∈ namesOf teams ∧ g.home ≠ g.away) :
    simulateGames draw games teams
      = (simResults draw 0 games,
         teams.map (fun t =>
           { t with seasonWins := winsByName draw 0 t.name games,
                    tieWins := 0, currentPlace := 0 })) := by
  unfold simulateGames
  have hnames : namesOf (teams.map resetTeam) = namesOf teams :=
    namesOf_map resetTeam (fun t => rfl) teams
  rw [simulateGamesAux_closed draw games 0 (teams.map resetTeam)
    (fun g hg => ⟨hnames ▸ (hp g hg).1, (hp g hg).2⟩)]
  refine Prod.ext rfl ?_
  simp only [List.map_map]
  refine List.map_congr_left ?_
  intro t _
  simp [resetTeam, Function.comp]

/-! ### Closed form of `calculateOpponentStrength` -/

/-- The `(name, seasonWins)` columns, the only team state the
opponent-strength pass reads. -/
def profileOf (ts : List Team) : List (String × ℕ) :=
  ts.map (fun t => (t.name, t.seasonWins))

theorem sumWinsOfName_profile (ts : List Team) (n : String) :
    sumWinsOfName ts n
      = (profileOf ts).foldl (fun s p => if p.1 = n then s + p.2 else s) 0 := by
  unfold sumWinsOfName profileOf
  rw [List.foldl_map]

theorem sumWinsOfName_congr {ts ts' : List Team} (h : profileOf ts = profileOf ts')
    (n : String) : sumWinsOfName ts n = sumWinsOfName ts' n := by
  rw [sumWinsOfName_profile, sumWinsOfName_profile, h]

theorem profileOf_map (f : Team → Team)
    (h : ∀ t, (f t).name = t.name ∧ (f t).seasonWins = t.seasonWins) (ts : List Team) :
    profileOf (ts.map f) = profileOf ts := by
  induction ts with
  | nil => rfl
  | cons t ts ih =>
    simp only [profileOf, List.map_cons] at ih ⊢
    rw [(h t).1, (h t).2, ih]

theorem oppContribution_congr {ts ts' : List Team} (h : profileOf ts = profileOf ts')
    (n : String) (g : Game) : oppContribution ts n g = oppContribution ts' n g := by
  unfold oppContribution
  rw [sumWinsOfName_congr h, sumWinsOfName_congr h]

theorem oppStrengthPerGame_congr {ts ts' : List Team} (h : profileOf ts = profileOf ts')
    (gs : List Game) (n : String) :
    oppStrengthPerGame gs ts n = oppStrengthPerGame gs ts' n := by
  unfold oppStrengthPerGame
  have : (fun (s : ℕ) (g : Game) => s + oppContribution ts n g)
      = fun s g => s + oppContribution ts' n g := by
    funext s g
    rw [oppContribution_congr h]
  rw [this]

theorem foldl_add_shift (c : Game → ℕ) :
    ∀ (l : List Game) (s : ℕ),
      l.foldl (fun a g => a + c g) s = s + l.foldl (fun a g => a + c g) 0 := by
  intro l
  induction l with
  | nil => intro s; simp
  | cons g gs ih =>
    intro s
    rw [List.foldl_cons, List.foldl_cons, ih (s + c g), ih (0 + c g)]
    omega

theorem oppStrengthPerGame_cons (g : Game) (gs : List Game) (ts : List Team) (n : String) :
    oppStrengthPerGame (g :: gs) ts n
      = oppContribution ts n g + oppStrengthPerGame gs ts n := by
  unfold oppStrengthPerGame
  rw [List.foldl_cons, foldl_add_shift]
  omega

/-- The per-team effect of one game inside `calculateOpponentStrength`. -/
theorem calcOppStep_eq (g : Game) (ts : List Team) :
    ts.map (fun t =>
        if g.home = t.name then { t with tieWins := t.tieWins + sumWinsOfName ts g.away }
        else if g.away = t.name then { t with tieWins := t.tieWins + sumWinsOfName ts g.home }
        else t)
      = ts.map (fun t => { t with tieWins := t.tieWins + oppContribution ts t.name g }) := by
  refine List.map_congr_left ?_
  intro t _
  unfold oppContribution
  by_cases h1 : g.home = t.name
  · rw [if_pos h1, if_pos h1]
  · rw [if_neg h1, if_neg h1]
    by_cases h2 : g.away = t.name
    · rw [if_pos h2, if_pos h2]
    · rw [if_neg h2, if_neg h2]
      exact (by simp : t = { t with tieWins := t.tieWins + 0 })

theorem calcOpp_fold :
    ∀ (gs : List Game) (ts : List Team),
      gs.foldl (fun ts g =>
          ts.map (fun t =>
            if g.home = t.name then { t with tieWins := t.tieWins + sumWinsOfName ts g.away }
            else if g.away = t.name then { t with tieWins := t.tieWins + sumWinsOfName ts g.home }
            else t)) ts
        = ts.map (fun t => { t with tieWins := t.tieWins + oppStrengthPerGame gs ts t.name }) := by
  intro gs
  induction gs with
  | nil =>
    intro ts
    have hid : (fun (t : Team) =>
        { t with tieWins := t.tieWins + oppStrengthPerGame [] ts t.name }) = fun t => t := by
      funext t
      simp [oppStrengthPerGame]
    simp [hid]
  | cons g gs ih =>
    intro ts
    rw [List.foldl_cons, calcOppStep_eq, ih]
    have hprof : profileOf (ts.map
        (fun t => { t with tieWins := t.tieWins + oppContribution ts t.name g }))
        = profileOf ts :=
      profileOf_map (fun t => { t with tieWins := t.tieWins + oppContribution ts t.name g })
        (fun t => ⟨rfl, rfl⟩) ts
    simp only [List.map_map]
    refine List.map_congr_left ?_
    intro t _
    simp only [Function.comp]
    rw [oppStrengthPerGame_congr hprof, oppStrengthPerGame_cons]
    congr 1
    omega

/-- Closed form of `calculateOpponentStrength`: every team's `tieWins`
becomes the sum, over each game it appears in, of the opposing side's
`seasonWins` — the `teamList` argument is ignored. -/
theorem calculateOpponentStrength_closed (games : List Game) (teams : List Team)
    (tl : List String) :
    calculateOpponentStrength games teams tl
      = teams.map (fun t =>
          { t with tieWins := oppStrengthPerGame games teams t.name }) := by
  unfold calculateOpponentStrength
  rw [calcOpp_fold]
  have hprof : profileOf (teams.map (fun t => { t with tieWins := 0 })) = profileOf teams :=
    profileOf_map (fun t => { t with tieWins := 0 }) (fun t => ⟨rfl, rfl⟩) teams
  simp only [List.map_map]
  refine List.map_congr_left ?_
  intro t _
  simp only [Function.comp]
  rw [oppStrengthPerGame_congr hprof]
  congr 1
  omega

/-! ### Standings resolution -/

theorem ite_lt_max (m w : ℕ) : (if m < w then w else m) = max m w := by
  rcases Nat.lt_or_ge m w with h | h
  · rw [if_pos h, max_eq_right h.le]
  · rw [if_neg (not_lt.mpr h), max_eq_left h]

theorem maxUnplacedWins_eq (teams : List Team) :
    maxUnplacedWins teams
      = ((teams.filter (fun t => t.currentPlace == 0)).map Team.seasonWins).foldl max 0 := by
  unfold maxUnplacedWins
  rw [List.foldl_map]
  suffices h : ∀ (m : ℕ),
      teams.foldl
        (fun m t => if t.currentPlace = 0 ∧ m < t.seasonWins then t.seasonWins else m) m
      = (teams.filter (fun t => t.currentPlace == 0)).foldl
          (fun m t => max m t.seasonWins) m from h 0
  induction teams with
  | nil => intro m; rfl
  | cons t ts ih =>
    intro m
    rw [List.foldl_cons]
    by_cases hp : t.currentPlace = 0
    · have hf : (t :: ts).filter (fun t => t.currentPlace == 0)
          = t :: ts.filter (fun t => t.currentPlace == 0) := by
        rw [List.filter_cons_of_pos (by simp [hp])]
      rw [hf, List.foldl_cons]
      by_cases hlt : m < t.seasonWins
      · rw [if_pos ⟨hp, hlt⟩, ih, max_eq_right hlt.le]
      · rw [if_neg (fun hc => hlt hc.2), ih, max_eq_left (not_lt.mp hlt)]
    · have hf : (t :: ts).filter (fun t => t.currentPlace == 0)
          = ts.filter (fun t => t.currentPlace == 0) := by
        rw [List.filter_cons_of_neg (by simp [hp])]
      rw [hf, if_neg (fun hc => hp hc.1), ih]

theorem maxUnplacedWins_attained {teams : List Team}
    (h : ∃ t ∈ teams, t.currentPlace = 0) :
    ∃ t ∈ teams, t.currentPlace = 0 ∧ t.seasonWins = maxUnplacedWins teams := by
  obtain ⟨t0, ht0, hp0⟩ := h
  have hne : (teams.filter (fun t => t.currentPlace == 0)).map Team.seasonWins ≠ [] := by
    have hmem : t0 ∈ teams.filter (fun t => t.currentPlace == 0) :=
      List.mem_filter.mpr ⟨ht0, by simp [hp0]⟩
    intro hnil
    simp only [List.map_eq_nil_iff] at hnil
    rw [hnil] at hmem
    exact (List.not_mem_nil t0) hmem
  have hmem := foldl_max_zero_mem hne
  rw [← maxUnplacedWins_eq] at hmem
  obtain ⟨t, ht, htw⟩ := List.mem_map.mp hmem
  have h' := List.mem_filter.mp ht
  exact ⟨t, h'.1, by simpa using h'.2, htw⟩

theorem mem_findTeamsWithRecord {teams : List Team} {wins : ℕ} {n : String} :
    n ∈ findTeamsWithRecord teams wins true
      ↔ ∃ t ∈ teams, t.name = n ∧ t.seasonWins = wins ∧ t.currentPlace = 0 := by
  unfold findTeamsWithRecord
  rw [mem_sortNames, List.mem_map]
  constructor
  · rintro ⟨t, ht, rfl⟩
    have h := List.mem_filter.mp ht
    have h2 := h.2
    simp only [Bool.and_eq_true, beq_iff_eq, Bool.or_eq_true] at h2
    refine ⟨t, h.1, rfl, h2.1, ?_⟩
    rcases h2.2 with h3 | h3
    · simp at h3
    · simpa using h3
  · rintro ⟨t, ht, rfl, hw, hp⟩
    exact ⟨t, List.mem_filter.mpr ⟨ht, by simp [hw, hp]⟩, rfl⟩

theorem findTeamsWithRecord_nodup (teams : List Team) (wins : ℕ) (b : Bool)
    (h : (namesOf teams).Nodup) : (findTeamsWithRecord teams wins b).Nodup := by
  refine sortNames_nodup (List.Nodup.sublist ?_ h)
  exact List.Sublist.map Team.name (List.filter_sublist teams)

theorem filter_name_singleton {teams : List Team} {w : String}
    (hnodup : (namesOf teams).Nodup) (hex : ∃ t ∈ teams, t.name = w) :
    (teams.filter (fun t => t.name ∈ [w])).map Team.name = [w] := by
  induction teams with
  | nil => obtain ⟨t, ht, -⟩ := hex; exact absurd ht (List.not_mem_nil t)
  | cons t ts ih =>
    simp only [namesOf, List.map_cons, List.nodup_cons] at hnodup
    by_cases hn : t.name = w
    · rw [List.filter_cons_of_pos (by simp [hn])]
      have hrest : ts.filter (fun t => t.name ∈ [w]) = [] := by
        rw [List.filter_eq_nil_iff]
        intro t' ht'
        simp only [List.mem_singleton, decide_eq_true_eq]
        intro hc
        exact hnodup.1 (by rw [hn, ← hc]; exact List.mem_map_of_mem Team.name ht')
      rw [List.map_cons, hrest, hn]
      rfl
    · rw [List.filter_cons_of_neg (by simp [hn])]
      refine ih hnodup.2 ?_
      obtain ⟨t', ht', hw'⟩ := hex
      rcases List.mem_cons.mp ht' with rfl | ht'
      · exact absurd hw' hn
      · exact ⟨t', ht', hw'⟩

theorem placePass_spec (games : List Game) (pick : ℕ → ℕ) (idx : ℕ)
    (teams : List Team) (place : ℕ)
    (hnodup : (namesOf teams).Nodup) (hx : ∃ t ∈ teams, t.currentPlace = 0) :
    ∃ w, (∃ t ∈ teams, t.name = w ∧ t.currentPlace = 0) ∧
      (placePass games pick idx teams place).2.1 = some w ∧
      (placePass games pick idx teams place).1
        = teams.map (fun t =>
            if t.name = w then
              { t with currentPlace := place,
                       firstPlaceCount :=
                         (if place = 1 then t.firstPlaceCount + 1 else t.firstPlaceCount),
                       secondPlaceCount :=
                         (if place = 2 then t.secondPlaceCount + 1 else t.secondPlaceCount) }
            else t) := by
  obtain ⟨t0, ht0, hp0, hw0⟩ := maxUnplacedWins_attained hx
  have htied : t0.name ∈ findTeamsWithRecord teams (maxUnplacedWins teams) true :=
    mem_findTeamsWithRecord.mpr ⟨t0, ht0, rfl, hw0, hp0⟩
  have htne : findTeamsWithRecord teams (maxUnplacedWins teams) true ≠ [] := by
    intro hnil
    rw [hnil] at htied
    exact (List.not_mem_nil _) htied
  have htnodup := findTeamsWithRecord_nodup teams (maxUnplacedWins teams) true hnodup
  have htsub : findTeamsWithRecord teams (maxUnplacedWins teams) true ⊆ namesOf teams := by
    intro n hn
    obtain ⟨t, ht, rfl, -, -⟩ := mem_findTeamsWithRecord.mp hn
    exact List.mem_map_of_mem Team.name ht
  obtain ⟨w, hwmem, hcase⟩ := resolveTiebreaker_master games teams
    (findTeamsWithRecord teams (maxUnplacedWins teams) true) pick idx
    htne htnodup htsub hnodup
  obtain ⟨tw, htw, hwname, hwwins, hwplace⟩ := mem_findTeamsWithRecord.mp hwmem
  have hres : ∃ u p, resolveTiebreaker games teams
      (findTeamsWithRecord teams (maxUnplacedWins teams) true) pick idx
      = ⟨[w], u, p⟩ := by
    rcases hcase with h | h
    · exact ⟨false, 0, h⟩
    · exact ⟨true, 1, h⟩
  obtain ⟨u, p, hres⟩ := hres
  refine ⟨w, ⟨tw, htw, hwname, hwplace⟩, ?_, ?_⟩
  · simp only [placePass, if_neg htne, hres]
    rw [filter_name_singleton hnodup ⟨tw, htw, hwname⟩]
    rfl
  · simp only [placePass, if_neg htne, hres]
    refine List.map_congr_left ?_
    intro t _
    simp only [List.mem_singleton]

theorem exists_second_team {teams : List Team} {w : String}
    (hnodup : (namesOf teams).Nodup) (hlen : 2 ≤ teams.length) :
    ∃ t ∈ teams, t.name ≠ w := by
  match teams, hlen with
  | t1 :: t2 :: ts, _ =>
    simp only [namesOf, List.map_cons, List.nodup_cons, List.mem_cons] at hnodup
    by_cases h1 : t1.name = w
    · refine ⟨t2, by simp, ?_⟩
      intro h2
      exact hnodup.1 (Or.inl (h1.trans h2.symm))
    · exact ⟨t1, by simp, h1⟩

theorem determineStandings_distinct (games : List Game) (teams : List Team)
    (pick : ℕ → ℕ) (idx : ℕ)
    (hnodup : (namesOf teams).Nodup) (hlen : 2 ≤ teams.length)
    (hunp : ∀ t ∈ teams, t.currentPlace = 0) :
    ∃ f s, (determineStandings games teams pick idx).first = some f ∧
      (determineStandings games teams pick idx).second = some s ∧
      f ≠ s ∧ f ∈ namesOf teams ∧ s ∈ namesOf teams := by
  have hx1 : ∃ t ∈ teams, t.currentPlace = 0 := by
    match teams, hlen, hunp with
    | t :: ts, _, hunp => exact ⟨t, by simp, hunp t (by simp)⟩
  obtain ⟨w1, ⟨t1, ht1, ht1n, ht1p⟩, hfirst, hteams1⟩ :=
    placePass_spec games pick idx teams 1 hnodup hx1
  have hnames1 : namesOf (placePass games pick idx teams 1).1 = namesOf teams := by
    rw [hteams1]
    refine namesOf_map _ ?_ _
    intro t
    split <;> rfl
  have hnodup1 : (namesOf (placePass games pick idx teams 1).1).Nodup :=
    hnames1 ▸ hnodup
  obtain ⟨t', ht', hne'⟩ := exists_second_team hnodup hlen
  have hx2 : ∃ t ∈ (placePass games pick idx teams 1).1, t.currentPlace = 0 := by
    rw [hteams1]
    refine ⟨_, List.mem_map_of_mem _ ht', ?_⟩
    rw [if_neg hne']
    exact hunp t' ht'
  obtain ⟨w2, ⟨t2m, ht2m, ht2n, ht2p⟩, hsecond, -⟩ :=
    placePass_spec games pick (idx + (placePass games pick idx teams 1).2.2.2)
      (placePass games pick idx teams 1).1 2 hnodup1 hx2
  rw [hteams1] at ht2m
  obtain ⟨t2, ht2, hf⟩ := List.mem_map.mp ht2m
  have hname2 : t2m.name = t2.name := by
    rw [← hf]
    split <;> rfl
  have hne12 : w2 ≠ w1 := by
    intro hc
    by_cases ht2w : t2.name = w1
    · rw [← hf] at ht2p
      rw [if_pos ht2w] at ht2p
      simp at ht2p
    · exact ht2w (by rw [← hname2, ht2n, hc])
  refine ⟨w1, w2, hfirst, hsecond, fun hc => hne12 (hc.symm), ?_, ?_⟩
  · rw [← ht1n]
    exact List.mem_map_of_mem Team.name ht1
  · rw [← ht2n, hname2]
    exact List.mem_map_of_mem Team.name ht2

/-! ### Head-to-head resolution of a two-team tie -/

theorem pairMatch_symm {g : Game} {a b : String} : pairMatch g a b ↔ pairMatch g b a :=
  Or.comm

theorem sortNames_pair (x y : String) :
    sortNames [x, y] = if x ≤ y then [x, y] else [y, x] := by
  unfold sortNames
  simp only [List.insertionSort, List.orderedInsert]

theorem resolveTwoTeamAux_headToHead (games : List Game) (ts : List Team)
    (a b A : String) (pick : ℕ → ℕ) (idx : ℕ)
    (hh : headToHeadWinner games a b = some A) :
    resolveTwoTeamAux games ts [a, b] pick idx = ⟨[A], false, 0⟩ := by
  have hsteps : twoTeamSteps games ts [a, b] = [A] := by
    simp only [twoTeamSteps]
    rw [hh]
    simp
  simp only [resolveTwoTeamAux, hsteps]
  rfl

/-- When the schedule holds a fixture between the pair and every such
fixture is recorded as a win for `A`, the tiebreaker resolves to `A` by
head-to-head alone — deterministically, whatever the rest of the state. -/
theorem resolveTiebreaker_headToHead (games : List Game) (ts : List Team)
    (A B : String) (tied : List String) (pick : ℕ → ℕ) (idx : ℕ)
    (hAB : A ≠ B) (htied : tied = [A, B] ∨ tied = [B, A])
    (hex : ∃ g ∈ games, pairMatch g A B)
    (hall : ∀ g ∈ games, pairMatch g A B → winnerOfGame g = A) :
    resolveTiebreaker games ts tied pick idx = ⟨[A], false, 0⟩ := by
  have hmain : ∀ a b : String, (a = A ∧ b = B) ∨ (a = B ∧ b = A) →
      resolveTwoTeamAux games ts [a, b] pick idx = ⟨[A], false, 0⟩ := by
    rintro a b (⟨rfl, rfl⟩ | ⟨rfl, rfl⟩)
    · exact resolveTwoTeamAux_headToHead games ts _ _ _ pick idx
        (headToHeadWinner_all_won hex hall)
    · refine resolveTwoTeamAux_headToHead games ts _ _ _ pick idx ?_
      refine headToHeadWinner_all_won ?_ ?_
      · obtain ⟨g, hg, hm⟩ := hex
        exact ⟨g, hg, pairMatch_symm.mp hm⟩
      · intro g hg hm
        exact hall g hg (pairMatch_symm.mp hm)
  have hsort : sortNames tied = [A, B] ∨ sortNames tied = [B, A] := by
    rcases htied with rfl | rfl
    · rw [sortNames_pair]
      by_cases h : A ≤ B
      · rw [if_pos h]; exact Or.inl rfl
      · rw [if_neg h]; exact Or.inr rfl
    · rw [sortNames_pair]
      by_cases h : B ≤ A
      · rw [if_pos h]; exact Or.inr rfl
      · rw [if_neg h]; exact Or.inl rfl
  simp only [resolveTiebreaker]
  rcases hsort with hs | hs <;> rw [hs]
  · simp only [List.length_cons, List.length_nil]
    norm_num
    exact hmain A B (Or.inl ⟨rfl, rfl⟩)
  · simp only [List.length_cons, List.length_nil]
    norm_num
    exact hmain B A (Or.inr ⟨rfl, rfl⟩)

/-! ### Aggregation of the random-tiebreak counter -/

/-- The `randomUsed` count the trial at index `i` contributes to the run's
total, taken at the game/team state the first `i` trials produced. -/
def trialUsedAt (draws : ℕ → ℕ → ℚ) (picks : ℕ → ℕ → ℕ)
    (games : List Game) (teams : List Team) (i : ℕ) : ℕ :=
  (runTrial (draws i) (picks i) (runSims draws picks games teams i).1
    (runSims draws picks games teams i).2.1).used

theorem determineStandings_used_eq (games : List Game) (teams : List Team)
    (pick : ℕ → ℕ) (idx : ℕ) :
    (determineStandings games teams pick idx).randomUsed
      = (if (placePass games pick idx teams 1).2.2.1 then 1 else 0)
        + (if (placePass games pick (idx + (placePass games pick idx teams 1).2.2.2)
            (placePass games pick idx teams 1).1 2).2.2.1 then 1 else 0) := rfl

theorem determineStandings_used_le (games : List Game) (teams : List Team)
    (pick : ℕ → ℕ) (idx : ℕ) :
    (determineStandings games teams pick idx).randomUsed ≤ 2 := by
  rw [determineStandings_used_eq]
  split_ifs <;> norm_num

theorem runSims_total_eq_sum (draws : ℕ → ℕ → ℚ) (picks : ℕ → ℕ → ℕ)
    (games : List Game) (teams : List Team) :
    ∀ n, (runSims draws picks games teams n).2.2
      = (Finset.range n).sum (trialUsedAt draws picks games teams) := by
  intro n
  induction n with
  | zero => rfl
  | succ n ih => rw [Finset.sum_range_succ, ← ih]; rfl

/-! ## Claim theorems -/

/-- C1: for every nonempty candidate list of tied team identifiers (each a
known, unduplicated team name) and every simulated game/win state,
`resolveTiebreaker` returns exactly one winner, a member of the candidate
list, together with a flag that is true exactly when the random-fallback
step consumed a `randrange` draw to produce that winner. -/
theorem claim_C1 (games : List Game) (teams : List Team) (tiedTeams : List String)
    (pick : ℕ → ℕ) (idx : ℕ)
    (h1 : tiedTeams ≠ []) (h2 : tiedTeams.Nodup)
    (h3 : ∀ n ∈ tiedTeams, n ∈ namesOf teams) (h4 : (namesOf teams).Nodup) :
    ∃ w, (resolveTiebreaker games teams tiedTeams pick idx).winners = [w]
      ∧ w ∈ tiedTeams
      ∧ ((resolveTiebreaker games teams tiedTeams pick idx).usedRandom = true
          ↔ (resolveTiebreaker games teams tiedTeams pick idx).picks = 1) := by
  obtain ⟨w, hw, hcase⟩ := resolveTiebreaker_master games teams tiedTeams pick idx
    h1 h2 (fun n hn => h3 n hn) h4
  rcases hcase with h | h <;> rw [h] <;> exact ⟨w, rfl, hw, by simp⟩

/-- C2: for a sorted duplicate-free group of `k ≥ 3` tied teams, one body of
the multi-team loop never grows the candidate list and strictly shrinks it
on every `shrunk` outcome; running the loop with fuel `k` is exact (extra
fuel changes nothing, i.e. at most `k` iterations happen); and the whole
procedure ends with a single winner from the group. -/
theorem claim_C2 (games : List Game) (teams : List Team) (winners : List String)
    (pick : ℕ → ℕ) (idx : ℕ)
    (hts : (namesOf teams).Nodup) (hsorted : List.Sorted (· ≤ ·) winners)
    (hnodup : winners.Nodup) (hsub : ∀ n ∈ winners, n ∈ namesOf teams)
    (hlen : 2 < winners.length) :
    (∀ t2 w2, multiIter games teams winners = .shrunk t2 w2 →
        (∀ n ∈ w2, n ∈ winners) ∧ w2.length < winners.length) ∧
    (∀ extra, multiLoop games pick idx (winners.length + extra) teams winners
        = multiLoop games pick idx winners.length teams winners) ∧
    (∃ w, (resolveTiebreaker games teams winners pick idx).winners = [w] ∧ w ∈ winners) := by
  have hne : winners ≠ [] := by
    intro h
    rw [h] at hlen
    simp at hlen
  refine ⟨?_, ?_, ?_⟩
  · intro t2 w2 h
    obtain ⟨-, hg⟩ := (multiIter_spec games teams winners hts
      (fun n hn => hsub n hn) hne).1 t2 w2 h
    exact ⟨fun n hn => hg.2.2.1 hn, hg.length_lt hsorted⟩
  · intro extra
    exact multiLoop_fuel games pick idx winners.length teams winners hts hsorted
      (fun n hn => hsub n hn) hne (by omega) extra
  · obtain ⟨w, hw, hcase⟩ := resolveTiebreaker_master games teams winners pick idx
      hne hnodup (fun n hn => hsub n hn) hts
    rcases hcase with h | h <;> rw [h] <;> exact ⟨w, rfl, hw⟩

/-- C3: when the schedule holds the fixture between the two tied teams and
its recorded outcome is a win for `A`, the tiebreaker returns `A` alone with
the random-fallback flag false, regardless of every other game outcome and
all win totals. -/
theorem claim_C3 (games : List Game) (teams : List Team) (A B : String)
    (tied : List String) (pick : ℕ → ℕ) (idx : ℕ)
    (hAB : A ≠ B) (htied : tied = [A, B] ∨ tied = [B, A])
    (hex : ∃ g ∈ games, pairMatch g A B)
    (hall : ∀ g ∈ games, pairMatch g A B → winnerOfGame g = A) :
    resolveTiebreaker games teams tied pick idx = ⟨[A], false, 0⟩ :=
  resolveTiebreaker_headToHead games teams A B tied pick idx hAB htied hex hall

/-- C4: `simulateGames` first zeroes every team's wins and placement, then
decides fixture `i` from the single draw `draw i`: result 1 (reference-side
win) exactly when the draw is below the reference probability, else the
other side wins; each team's final win count is the number of fixtures it
won, so every fixture is decided with exactly one winner credited. -/
theorem claim_C4 (draw : ℕ → ℚ) (games : List Game) (teams : List Team)
    (hp : ∀ g ∈ games, g.home ∈ namesOf teams ∧ g.home ≠ g.away) :
    simulateGames draw games teams
      = (simResults draw 0 games,
         teams.map (fun t =>
           { t with seasonWins := winsByName draw 0 t.name games,
                    tieWins := 0, currentPlace := 0 })) :=
  simulateGames_closed draw games teams hp

/-- C5 (amended): the run-wide `totalRandomTiebreakers` is the sum over
trials of that trial's `randomTiebreakersUsed`, which counts the 1st-place
and the 2nd-place resolution separately — each trial contributes up to 2
(not at most 1 as the original claim says). -/
theorem claim_C5 (draws : ℕ → ℕ → ℚ) (picks : ℕ → ℕ → ℕ)
    (games : List Game) (teams : List Team) (n : ℕ) :
    (runSims draws picks games teams n).2.2
        = (Finset.range n).sum (trialUsedAt draws picks games teams)
      ∧ (∀ i, trialUsedAt draws picks games teams i ≤ 2)
      ∧ (∀ (g : List Game) (t : List Team) (pk : ℕ → ℕ) (ix : ℕ),
          (determineStandings g t pk ix).randomUsed
            = (if (placePass g pk ix t 1).2.2.1 then 1 else 0)
              + (if (placePass g pk (ix + (placePass g pk ix t 1).2.2.2)
                  (placePass g pk ix t 1).1 2).2.2.1 then 1 else 0)) := by
  refine ⟨runSims_total_eq_sum draws picks games teams n, ?_, ?_⟩
  · intro i
    exact determineStandings_used_le _ _ _ _
  · intro g t pk ix
    exact determineStandings_used_eq g t pk ix

/-- C6 (amended): schedule construction fails, before any trial, exactly
when the fixture count differs from `9 * teamCount / 2`; an out-of-range
probability is NOT rejected — a schedule passing the count check is
accepted whatever its probability values. -/
theorem claim_C6 (teams : List String) (raw : List (String × String × ℚ)) :
    (loadGameData teams raw).isSome = true ↔ raw.length = 9 * teams.length / 2 := by
  simp only [loadGameData, List.length_map]
  by_cases h : raw.length = 9 * teams.length / 2
  · simp [h]
  · simp [h]

/-- C7 (amended): `calculateOpponentStrength` assigns every team (its
`teamList` argument is ignored) the sum, over each game the team appears
in, of the opposing side's current win total — once per game, so an
opponent met in repeated pairings is counted once per pairing, not once
per opponent. -/
theorem claim_C7 (games : List Game) (teams : List Team) (teamList : List String) :
    calculateOpponentStrength games teams teamList
      = teams.map (fun t =>
          { t with tieWins := oppStrengthPerGame games teams t.name }) :=
  calculateOpponentStrength_closed games teams teamList

/-- C8: canonicalizing a raw row with distinct team identifiers and
canonicalizing its swapped form yield identical stored fixtures, with the
alphabetically earlier identifier as the reference (home) side and the
probability expressed for that side. -/
theorem claim_C8 (t1 t2 : String) (p : ℚ) (h : t1 ≠ t2) :
    canonGame (t1, t2, p) = canonGame (t2, t1, 1 - p)
      ∧ (canonGame (t1, t2, p)).home = min t1 t2
      ∧ (canonGame (t1, t2, p)).away = max t1 t2
      ∧ (canonGame (t1, t2, p)).prob = (if t1 < t2 then p else 1 - p) := by
  rcases lt_trichotomy t1 t2 with hlt | heq | hgt
  · have hnlt : ¬ t2 < t1 := not_lt.mpr hlt.le
    simp only [canonGame]
    rw [if_pos hlt, if_neg hnlt, if_pos hlt]
    refine ⟨?_, ?_, ?_, rfl⟩
    · have : 1 - (1 - p) = p := by ring
      rw [this]
    · rw [min_eq_left hlt.le]
    · rw [max_eq_right hlt.le]
  · exact absurd heq h
  · have hnlt : ¬ t1 < t2 := not_lt.mpr hgt.le
    simp only [canonGame]
    rw [if_neg hnlt, if_pos hgt, if_neg hnlt]
    refine ⟨rfl, ?_, ?_, rfl⟩
    · rw [min_eq_right hgt.le]
    · rw [max_eq_left hgt.le]

/-- C9: with every fixture probability exactly 0 or 1, two runs of a trial
under different draw sequences (all draws in `[0,1)`) produce identical
game outcomes and win totals; and when the standings resolution reports no
random fallback, the standings are identical as well, whatever the
`randrange` streams. -/
theorem claim_C9 (games : List Game) (teams : List Team)
    (draw1 draw2 : ℕ → ℚ) (pick1 pick2 : ℕ → ℕ) (idx1 idx2 : ℕ)
    (hp : ∀ g ∈ games, g.prob = 0 ∨ g.prob = 1)
    (hd1 : ∀ i, 0 ≤ draw1 i ∧ draw1 i < 1) (hd2 : ∀ i, 0 ≤ draw2 i ∧ draw2 i < 1) :
    simulateGames draw1 games teams = simulateGames draw2 games teams
    ∧ ((determineStandings (simulateGames draw1 games teams).1
          (simulateGames draw1 games teams).2 pick1 idx1).randomUsed = 0 →
        determineStandings (simulateGames draw2 games teams).1
            (simulateGames draw2 games teams).2 pick2 idx2
          = determineStandings (simulateGames draw1 games teams).1
              (simulateGames draw1 games teams).2 pick1 idx1) := by
  have hsim := simulateGames_prob01 draw1 draw2 games teams hp hd1 hd2
  refine ⟨hsim, ?_⟩
  intro h
  rw [← hsim]
  exact determineStandings_pick_indep (simulateGames draw1 games teams).1
    (simulateGames draw1 games teams).2 pick1 idx1 pick2 idx2 h

/-- C10: in a trial over at least two (unplaced, uniquely named) teams,
`determineStandings` fills 1st and 2nd place with two distinct team names:
the 1st-place team is marked placed and so excluded from the 2nd-place
candidate search, and the reported pairing never pairs a team with
itself. -/
theorem claim_C10 (games : List Game) (teams : List Team)
    (pick : ℕ → ℕ) (idx : ℕ)
    (hnodup : (namesOf teams).Nodup) (hlen : 2 ≤ teams.length)
    (hunp : ∀ t ∈ teams, t.currentPlace = 0) :
    ∃ f s, (determineStandings games teams pick idx).first = some f
      ∧ (determineStandings games teams pick idx).second = some s
      ∧ f ≠ s ∧ f ∈ namesOf teams ∧ s ∈ namesOf teams :=
  determineStandings_distinct games teams pick idx hnodup hlen hunp

/-! ## Concrete instances: witnesses and counterexamples -/

/-- A fresh team row with every counter at zero. -/
def mkTeam (n : String) : Team := ⟨n, 0, 0, 0, 0, 0⟩

def teamsAB : List Team := [mkTeam "A", mkTeam "B"]

def teamsABC : List Team := [mkTeam "A", mkTeam "B", mkTeam "C"]

def teamsABCD : List Team := [mkTeam "A", mkTeam "B", mkTeam "C", mkTeam "D"]

/-- Two teams, one of which (`B`) already holds 3 wins. -/
def c7Teams : List Team := [⟨"A", 0, 0, 0, 0, 0⟩, ⟨"B", 3, 0, 0, 0, 0⟩]

/-- A schedule with a repeated pairing between the same two teams. -/
def c7Games : List Game := [⟨"A", "B", 1/2, 1⟩, ⟨"A", "B", 1/2, 1⟩]

theorem claim_C1_witness :
    ∃ w, (resolveTiebreaker [] teamsABC ["A", "B", "C"] (fun _ => 0) 0).winners = [w]
      ∧ w ∈ ["A", "B", "C"]
      ∧ ((resolveTiebreaker [] teamsABC ["A", "B", "C"] (fun _ => 0) 0).usedRandom = true
          ↔ (resolveTiebreaker [] teamsABC ["A", "B", "C"] (fun _ => 0) 0).picks = 1) :=
  claim_C1 [] teamsABC ["A", "B", "C"] (fun _ => 0) 0
    (by decide) (by decide) (by decide) (by decide)

theorem claim_C2_witness :
    (∀ t2 w2, multiIter [] teamsABC ["A", "B", "C"] = .shrunk t2 w2 →
        (∀ n ∈ w2, n ∈ ["A", "B", "C"]) ∧ w2.length < (["A", "B", "C"] : List String).length) ∧
    (∀ extra, multiLoop [] (fun _ => 0) 0 ((["A", "B", "C"] : List String).length + extra)
          teamsABC ["A", "B", "C"]
        = multiLoop [] (fun _ => 0) 0 (["A", "B", "C"] : List String).length
            teamsABC ["A", "B", "C"]) ∧
    (∃ w, (resolveTiebreaker [] teamsABC ["A", "B", "C"] (fun _ => 0) 0).winners = [w]
      ∧ w ∈ ["A", "B", "C"]) :=
  claim_C2 [] teamsABC ["A", "B", "C"] (fun _ => 0) 0
    (by decide) (by decide) (by decide) (by decide) (by decide)

theorem claim_C3_witness :
    resolveTiebreaker [⟨"A", "B", 1/2, 1⟩] [] ["B", "A"] (fun _ => 0) 0
      = ⟨["A"], false, 0⟩ :=
  claim_C3 [⟨"A", "B", 1/2, 1⟩] [] "A" "B" ["B", "A"] (fun _ => 0) 0
    (by decide) (Or.inr rfl) (by decide) (by decide)

theorem claim_C4_witness :
    simulateGames (fun _ => (1:ℚ)/2) [⟨"A", "B", 3/4, 0⟩] teamsAB
      = (simResults (fun _ => (1:ℚ)/2) 0 [⟨"A", "B", 3/4, 0⟩],
         teamsAB.map (fun t =>
           { t with seasonWins := winsByName (fun _ => (1:ℚ)/2) 0 t.name [⟨"A", "B", 3/4, 0⟩],
                    tieWins := 0, currentPlace := 0 })) :=
  claim_C4 (fun _ => (1:ℚ)/2) [⟨"A", "B", 3/4, 0⟩] teamsAB (by decide)

/-- C5 counterexample: one trial over four all-tied teams with an empty
schedule resolves both places by random fallback, so the single trial
contributes 2 to `totalRandomTiebreakers` — the original claim's
"at most 1 per trial" bound is violated (2 > number of trials). -/
theorem claim_C5_counterexample :
    (runSims (fun _ _ => (0:ℚ)) (fun _ _ => 0) [] teamsABCD 1).2.2 = 2
    ∧ ¬ ((runSims (fun _ _ => (0:ℚ)) (fun _ _ => 0) [] teamsABCD 1).2.2 ≤ 1) := by
  constructor
  · decide
  · decide

/-- C6 counterexample: a 9-row schedule whose every probability is `3/2`
(outside `[0,1]`) passes construction — the count check is the only
validation, so out-of-range probabilities are silently tolerated. -/
theorem claim_C6_counterexample :
    (loadGameData ["A", "B"] (List.replicate 9 ("A", "B", (3:ℚ)/2))).isSome = true
    ∧ ¬ ((3:ℚ)/2 ≤ 1) := by
  constructor
  · decide
  · norm_num

/-- C7 counterexample: with two pairings between `A` and `B` and `B`
holding 3 wins, the code assigns `A` strength 6 (once per game), while the
claimed "exactly once per opponent" sum is 3. -/
theorem claim_C7_counterexample :
    ((calculateOpponentStrength c7Games c7Teams ["A", "B"]).map Team.tieWins) = [6, 0]
    ∧ oppStrengthOncePerOpponent c7Games c7Teams "A" = 3
    ∧ (6 : ℕ) ≠ 3 := by
  refine ⟨by decide, by decide, by decide⟩

theorem claim_C8_witness :
    canonGame ("B", "A", (1:ℚ)/3) = canonGame ("A", "B", 1 - (1:ℚ)/3)
      ∧ (canonGame ("B", "A", (1:ℚ)/3)).home = min "B" "A"
      ∧ (canonGame ("B", "A", (1:ℚ)/3)).away = max "B" "A"
      ∧ (canonGame ("B", "A", (1:ℚ)/3)).prob = (if "B" < "A" then (1:ℚ)/3 else 1 - (1:ℚ)/3) :=
  claim_C8 "B" "A" ((1:ℚ)/3) (by decide)

def c9Games : List Game := [⟨"A", "B", 1, 0⟩, ⟨"A", "C", 0, 0⟩]

theorem claim_C9_witness :
    simulateGames (fun _ => (1:ℚ)/2) c9Games teamsABC
        = simulateGames (fun _ => (1:ℚ)/4) c9Games teamsABC
    ∧ ((determineStandings (simulateGames (fun _ => (1:ℚ)/2) c9Games teamsABC).1
          (simulateGames (fun _ => (1:ℚ)/2) c9Games teamsABC).2 (fun _ => 0) 0).randomUsed = 0 →
        determineStandings (simulateGames (fun _ => (1:ℚ)/4) c9Games teamsABC).1
            (simulateGames (fun _ => (1:ℚ)/4) c9Games teamsABC).2 (fun _ => 1) 5
          = determineStandings (simulateGames (fun _ => (1:ℚ)/2) c9Games teamsABC).1
              (simulateGames (fun _ => (1:ℚ)/2) c9Games teamsABC).2 (fun _ => 0) 0) :=
  claim_C9 c9Games teamsABC (fun _ => (1:ℚ)/2) (fun _ => (1:ℚ)/4) (fun _ => 0) (fun _ => 1) 0 5
    (by decide)
    (fun i => ⟨by norm_num, by norm_num⟩)
    (fun i => ⟨by norm_num, by norm_num⟩)

theorem claim_C10_witness :
    ∃ f s, (determineStandings [] teamsAB (fun _ => 0) 0).first = some f
      ∧ (determineStandings [] teamsAB (fun _ => 0) 0).second = some s
      ∧ f ≠ s ∧ f ∈ namesOf teamsAB ∧ s ∈ namesOf teamsAB :=
  claim_C10 [] teamsAB (fun _ => 0) 0 (by decide) (by decide) (by decide)

end Big12
